import Mathlib

/-!
Verification development for the PyDataTable repository (src/datatable.py and
src/datatable_diff.py): a shallow embedding of the table/column model, the
structural operators, the join engine and the diff engine, together with
theorems settling the specification claims.

Python dictionaries are modelled as association lists (`List (key × value)`)
whose entries are kept in insertion order, matching the ordered-dict
behaviour the code relies on; dictionary keys are unique, which shows up as
`Nodup` hypotheses on the key lists.  `AttributeDict` (from the repository's
util module, not part of src/) is a plain `dict` with attribute access and is
modelled as an ordinary dictionary.
-/

namespace PyDataTable

/-- The cell value type: Python `None`, `int` and `str` are the value shapes
exercised by the spec's claims (Python `bool` is an `int` subtype). -/
inductive Value where
  | null
  | int (n : Int)
  | str (s : String)
deriving DecidableEq, Repr

/-- A row is a Python dict from header name to value, in insertion order. -/
abbrev Row := List (String × Value)

/-- The keys of a row dict, in insertion order (Python `dict.keys()`). -/
def rowKeys (r : Row) : List String := r.map Prod.fst

/-- `row[h] if h in row else None` — total lookup with a `None` default. -/
def rowGetD (r : Row) (h : String) : Value := ((r.lookup h).getD Value.null)

/-- Byte-wise character order (Python compares strings by code point). -/
def charLe (a b : Char) : Bool := Nat.ble a.toNat b.toNat

/-- Lexicographic order on character lists. -/
def charsLe : List Char → List Char → Bool
  | [], _ => true
  | _ :: _, [] => false
  | a :: as, b :: bs => if a = b then charsLe as bs else charLe a b

/-- Lexicographic string order, matching Python's `str` comparison.
(`String.decidableLE` does not reduce in the kernel, hence this executable
definition over the underlying character lists.) -/
def strLe (a b : String) : Bool := charsLe a.data b.data

/-- `sorted(...)` on a list of header strings.  (Python's sort is a stable
merge sort; the string order is antisymmetric, so the sorted output is
unique and an insertion sort — which the kernel can evaluate — produces
exactly it.) -/
def pySorted (l : List String) : List String :=
  l.insertionSort (fun a b => strLe a b = true)

/-- A `DataTable`: the header dict's keys (in insertion order, `__headers`)
plus the list of rows (`__data`). -/
structure DataTable where
  headersRaw : List String
  rows : List Row
deriving DecidableEq, Repr

/-- `DataTable.headers()` — the sorted header names. -/
def DataTable.headers (t : DataTable) : List String := pySorted t.headersRaw

/-- A table is well-formed when its header names are distinct and every row
has exactly the table's header set (the §3 Row invariant). -/
def WF (t : DataTable) : Prop :=
  t.headersRaw.Nodup ∧ ∀ r ∈ t.rows, (rowKeys r).Perm t.headersRaw

/-- `DataTable.__init__`, dict branch: the union of the input rows' keys in
sorted order (`reduce(set.union, ...)` then `sorted`). -/
def collectHeaders (data : List Row) : List String :=
  pySorted (data.flatMap rowKeys).dedup

/-- The constructor's backfill loop: `for header in self.__headers.keys():
if header not in row: row[header] = None` mutates the caller's dict in
place, appending each missing header with a `None` value. -/
def backfillRow (hs : List String) (r : Row) : Row :=
  r ++ (hs.filter (fun h => ¬ (rowKeys r).contains h)).map (fun h => (h, Value.null))

/-- `DataTable.__init__` from a sequence of row dicts.  Returns the
constructed table together with the post-construction state of the caller's
row dicts (the constructor mutates them before copying them into
`self.__data`). -/
def dtFromRows (data : List Row) : DataTable × List Row :=
  if data = [] then (⟨[], []⟩, [])
  else
    let hs := collectHeaders data
    let post := data.map (backfillRow hs)
    (⟨hs, post⟩, post)

/-- `DataTable.__init__` from a header row followed by value rows (the
non-dict branch: `headers = data.pop(0)`, rows built by `zip`). -/
def dtFromHeaderRows (hs : List String) (vals : List (List Value)) : DataTable :=
  ⟨hs, vals.map (fun r => hs.zip r)⟩

/-- The Python error shapes the embedded operations can raise. -/
inductive PyErr where
  | typeErr
  | zeroDiv
  | valueErr
  | keyErr
  | dataTableErr (msg : String)
deriving DecidableEq, Repr

/-- `DataTable.__iadd__` restricted to a `DataTable` right operand:
raises when both header lists are non-empty and differ (`"headers don't
match"`), otherwise appends the right operand's rows (the left operand's
header dict is left untouched). -/
def iaddDT (self other : DataTable) : Except PyErr DataTable :=
  if self.headers ≠ [] ∧ other.headers ≠ [] ∧ self.headers ≠ other.headers then
    .error (.dataTableErr "headers don't match")
  else
    .ok ⟨self.headersRaw, self.rows ++ other.rows⟩

/-- Python dict assignment `row[h] = v`: replaces the value in place when the
key is present, appends the pair otherwise. -/
def rowSet (r : Row) (h : String) (v : Value) : Row :=
  if (rowKeys r).contains h then r.map (fun p => if p.1 = h then (h, v) else p)
  else r ++ [(h, v)]

/-- `DataTable.__iand__` for a dict of scalar values: each header is added to
the header dict when absent, then every row's value for it is overwritten
(broadcast).  The per-row-function branch of `__iand__` is not modelled:
`augment`, the only caller in the claims, passes string scalars. -/
def andCols (t : DataTable) (cols : List (String × Value)) : DataTable :=
  cols.foldl
    (fun acc hv =>
      ⟨if acc.headersRaw.contains hv.1 then acc.headersRaw else acc.headersRaw ++ [hv.1],
       acc.rows.map (fun r => rowSet r hv.1 hv.2)⟩)
    t

/-- `DataTable.augment`: returns `self` when `other` has no rows, `other`
when `self` has no rows; otherwise pads each side with the headers it is
missing — valued `''` (the empty string), per `dict((h,'') for h in ...)` —
and concatenates via `__add__`/`__iadd__`. -/
def augment (t1 t2 : DataTable) : Except PyErr DataTable :=
  if t2.rows.length = 0 then .ok t1
  else if t1.rows.length = 0 then .ok t2
  else
    let selfNew := (t2.headers.filter (fun h => ¬ t1.headers.contains h)).map
      (fun h => (h, Value.str ""))
    let otherNew := (t1.headers.filter (fun h => ¬ t2.headers.contains h)).map
      (fun h => (h, Value.str ""))
    iaddDT (andCols t1 selfNew) (andCols t2 otherNew)

/-- `DataColumn.__iter__` composed with `DataTable.column`: a present header
yields each row's value in row order; an absent header yields the
`NullColumn` variant whose `__iter__` yields nothing. -/
def columnValues (t : DataTable) (h : String) : List Value :=
  if t.headersRaw.contains h then t.rows.map (fun r => rowGetD r h) else []

/-- Python `+` on cell values as used by `sum`: defined on ints, a
`TypeError` otherwise (`None` and `str` cells do not add to an int). -/
def addValue : Value → Value → Except PyErr Value
  | .int a, .int b => .ok (.int (a + b))
  | _, _ => .error .typeErr

/-- Python `sum(iterable)`: folds `+` starting from the int `0`. -/
def pySum (vs : List Value) : Except PyErr Value :=
  vs.foldlM addValue (Value.int 0)

/-- Python 2 `/` on ints (floor division); division by zero raises. -/
def divValue : Value → Value → Except PyErr Value
  | .int a, .int b => if b = 0 then .error .zeroDiv else .ok (.int (Int.fdiv a b))
  | _, _ => .error .typeErr

/-- Python `-` on cell values: defined on ints. -/
def subValue : Value → Value → Except PyErr Value
  | .int a, .int b => .ok (.int (a - b))
  | _, _ => .error .typeErr

/-- A total comparison on heterogeneous values.  Modelled from the spec:
the comparator (`sortKey` in the util module, absent from src/) orders Null
below every non-null value, same-type values naturally, and cross-type
comparisons by a fixed total rule (here: int before str). -/
def valueCmp : Value → Value → Ordering
  | .null, .null => .eq
  | .null, _ => .lt
  | _, .null => .gt
  | .int a, .int b => compare a b
  | .str a, .str b => if a = b then .eq else if strLe a b then .lt else .gt
  | .int _, .str _ => .lt
  | .str _, .int _ => .gt

/-- `a <= b` for the total value order. -/
def valueLe (a b : Value) : Bool := valueCmp a b ≠ .gt

/-- Python `min(iterable)`: `ValueError` on an empty sequence, otherwise the
least element under the total value order. -/
def pyMin (vs : List Value) : Except PyErr Value :=
  match vs with
  | [] => .error .valueErr
  | x :: xs => .ok (xs.foldl (fun m v => if valueLe m v then m else v) x)

/-- Python `max(iterable)`: `ValueError` on an empty sequence. -/
def pyMax (vs : List Value) : Except PyErr Value :=
  match vs with
  | [] => .error .valueErr
  | x :: xs => .ok (xs.foldl (fun m v => if valueLe v m then m else v) x)

/-- `AggregateMethods.Sum`: `sum(bucket.column(field))`. -/
def aggSum (field : String) (bucket : DataTable) : Except PyErr Value :=
  pySum (columnValues bucket field)

/-- `AggregateMethods.Average`: `sum(bucket.column(field)) / len(bucket)`. -/
def aggAverage (field : String) (bucket : DataTable) : Except PyErr Value := do
  let s ← pySum (columnValues bucket field)
  divValue s (.int bucket.rows.length)

/-- `AggregateMethods.Min`: `min(bucket.column(field))`. -/
def aggMin (field : String) (bucket : DataTable) : Except PyErr Value :=
  pyMin (columnValues bucket field)

/-- `AggregateMethods.Max`: `max(bucket.column(field))`. -/
def aggMax (field : String) (bucket : DataTable) : Except PyErr Value :=
  pyMax (columnValues bucket field)

/-- The body of `AggregateMethods.Span.__call__`:
`max(bucket.column(field)) - min(bucket.column(field))`.  (As written the
`Span` class has no `__init__` accepting a field at all, so constructing
`Span(field)` already raises a `TypeError`; this embeds the call body.) -/
def aggSpan (field : String) (bucket : DataTable) : Except PyErr Value := do
  let mx ← pyMax (columnValues bucket field)
  let mn ← pyMin (columnValues bucket field)
  subValue mx mn

/-- Association-list lookup keyed by value tuples (bucket dictionaries). -/
def alookup {β : Type} (k : List Value) : List (List Value × β) → Option β
  | [] => none
  | p :: rest => if p.1 = k then some p.2 else alookup k rest

/-- `defaultdict` bucket insertion: append to the key's list, creating the
bucket (at the end, in first-seen key order) when absent. -/
def addToBucket {α : Type} (acc : List (List Value × List α)) (k : List Value) (x : α) :
    List (List Value × List α) :=
  if (alookup k acc).isSome then
    acc.map (fun p => if p.1 = k then (p.1, p.2 ++ [x]) else p)
  else acc ++ [(k, [x])]

/-- Strict `row[h]`: `KeyError` when the header is absent from the row. -/
def rowItem (r : Row) (h : String) : Except PyErr Value :=
  match r.lookup h with
  | some v => .ok v
  | none => .error .keyErr

/-- `tuple(row[field] for field in fields)`. -/
def keyOf (r : Row) (fields : List String) : Except PyErr (List Value) :=
  fields.mapM (rowItem r)

/-- Total variant of `keyOf` (the two agree on well-formed rows). -/
def keyOfD (r : Row) (fields : List String) : List Value :=
  fields.map (rowGetD r)

/-- The join spec argument: either a dict or something else (`join` begins
with `if not isinstance(joinParams, dict): raise ...`). -/
inductive JoinArg where
  | dict (jp : List (String × String))
  | nonDict

/-- `newHeaders = other.headers()` followed by `newHeaders.remove(header)`
for each mapped field; `list.remove` raises `ValueError` when the element
is absent. -/
def eraseHeaders (hs : List String) (vs : List String) : Except PyErr (List String) :=
  vs.foldlM (fun l v => if l.contains v then .ok (l.erase v) else .error .valueErr) hs

/-- The matched-row merge in `join`: write each non-join other-side header,
prefixed, into (a copy of) the self row.  (`otherRow[header]` cannot miss on
a well-formed table, so the defaulting lookup is used.) -/
def joinMerge (pfx : String) (newHeaders : List String) (row orow : Row) : Row :=
  newHeaders.foldl (fun r h => rowSet r (pfx ++ h) (rowGetD orow h)) row

/-- The left-join padding: every non-join other-side header, prefixed, set
to `None` on (a copy of) the self row. -/
def joinLeftPad (pfx : String) (newHeaders : List String) (row : Row) : Row :=
  newHeaders.foldl (fun r h => rowSet r (pfx ++ h) Value.null) row

/-- The right-join padding: all of the other row's keys prefixed, then every
self header overwritten with `None`. -/
def joinRightPad (pfx : String) (selfHeaders : List String) (orow : Row) : Row :=
  selfHeaders.foldl (fun r h => rowSet r h Value.null)
    (orow.map (fun p => (pfx ++ p.1, p.2)))

/-- The dict case of `DataTable.join`.  Returns the sequence of rows emitted
by the `tempJoin` generator together with the table `DataTable(tempJoin())`
built from them. -/
def joinDict (self other : DataTable) (jp : List (String × String)) (pfx : String)
    (leftJoin rightJoin : Bool) : Except PyErr (List Row × DataTable) := do
    let newHeaders ← eraseHeaders other.headers (jp.map Prod.snd)
    let keyed ← other.rows.mapM (fun orow => do
        let k ← keyOf orow (jp.map Prod.snd)
        pure (k, orow))
    let otherBuckets := keyed.foldl (fun acc kr => addToBucket acc kr.1 kr.2) []
    let emittedLists ← self.rows.mapM (fun row => do
        let key ← keyOf row (jp.map Prod.fst)
        match alookup key otherBuckets with
        | none =>
          pure (if leftJoin then [joinLeftPad pfx newHeaders row] else [])
        | some otherRows =>
          pure (otherRows.map (fun orow => joinMerge pfx newHeaders row orow)))
    let seenKeys ← self.rows.mapM (fun row => keyOf row (jp.map Prod.fst))
    let rightRows ← if rightJoin then do
        let ropt ← other.rows.mapM (fun orow => do
            let k ← keyOf orow (jp.map Prod.snd)
            pure (if seenKeys.contains k then none
              else some (joinRightPad pfx self.headers orow)))
        pure ropt.reduceOption
      else pure ([] : List Row)
    let emitted := emittedLists.flatten ++ rightRows
    pure (emitted, (dtFromRows emitted).1)

/-- `DataTable.join(other, joinParams, otherFieldPrefix, leftJoin,
rightJoin)`: raises unless the join spec is a dict. -/
def join (self other : DataTable) (arg : JoinArg) (pfx : String)
    (leftJoin rightJoin : Bool) : Except PyErr (List Row × DataTable) :=
  match arg with
  | .nonDict => .error .typeErr
  | .dict jp => joinDict self other jp pfx leftJoin rightJoin

/-- The claim's declarative description of the emitted join rows: every self
row emits one merged row per other-row with a matching key (in other-table
row order), or — when no other-row matches — a Null-padded row if
`leftJoin` and nothing otherwise; then, if `rightJoin`, one padded row per
other-row whose key no self row ever produced. -/
def joinRowsSpec (self other : DataTable) (jp : List (String × String)) (pfx : String)
    (leftJoin rightJoin : Bool) : List Row :=
  let nh := other.headers.filter (fun h => ¬ (jp.map Prod.snd).contains h)
  self.rows.flatMap (fun row =>
    let ms := other.rows.filter
      (fun orow => keyOfD orow (jp.map Prod.snd) = keyOfD row (jp.map Prod.fst))
    if ms.isEmpty then (if leftJoin then [joinLeftPad pfx nh row] else [])
    else ms.map (fun orow => joinMerge pfx nh row orow))
  ++ (if rightJoin then
        (other.rows.filter (fun orow => self.rows.all
          (fun row => keyOfD row (jp.map Prod.fst) ≠ keyOfD orow (jp.map Prod.snd)))).map
          (joinRightPad pfx self.headers)
      else [])

/-- The closed criterion union dispatched by `DataColumn.__filter`, in its
priority order: `None`, a column of the same table, a column of another
table (its value set), a callable, a non-string collection, or a literal. -/
inductive FilterCriterion where
  | isNull
  | sameTableCol (hdr : String)
  | otherTableCol (vals : List Value)
  | predCap (p : Value → Bool)
  | collection (vals : List Value)
  | literal (v : Value)

/-- Whether one row passes the criterion, given its value `v` for the
filtered column (the same-table-column branch indexes the row again). -/
def matchCriterion (r : Row) (v : Value) : FilterCriterion → Except PyErr Bool
  | .isNull => .ok (v = Value.null)
  | .sameTableCol hdr2 => do
    let w ← rowItem r hdr2
    pure (v = w)
  | .otherTableCol vals => .ok (vals.contains v)
  | .predCap p => .ok (p v)
  | .collection vals => .ok (vals.contains v)
  | .literal w => .ok (v = w)

/-- The body of `DataColumn._DataColumn__filter`: walk the rows, indexing
each row at the column's header. -/
def dcFilterRows (t : DataTable) (hdr : String) (c : FilterCriterion) :
    Except PyErr (List Row) :=
  t.rows.foldlM (fun acc row => do
    let v ← rowItem row hdr
    let b ← matchCriterion row v c
    pure (if b then acc ++ [row] else acc)) []

/-- `DataTable.column(hdr).filter(c)`.  `column` returns the `NullColumn`
variant when `hdr` is absent, but `filter` is inherited from `DataColumn`
and its `self.__filter` call resolves, by Python name mangling, to
`DataColumn._DataColumn__filter`; the `NullColumn.__filter` override (named
`_NullColumn__filter` after mangling) is dead code.  Filtering therefore
always runs the `DataColumn` body above, whichever column variant is in
hand. -/
def columnFilterTable (t : DataTable) (hdr : String) (c : FilterCriterion) :
    Except PyErr DataTable := do
  let rows ← dcFilterRows t hdr c
  pure (dtFromRows rows).1

/-- A value tuple aligned to the combined diff header index. -/
abbrev Tuple := List Value

/-- `datatable_diff.Result`: bucket key, the field→index map `diffFields`,
the changed-field dict `__data` (index → (from value, to value)), and the
originating from/to tuples (`None` when the side is absent). -/
structure Result where
  key : List Value
  diffFields : List (String × Nat)
  data : List (Nat × (Value × Value))
  fromRow : Option (List Tuple)
  toRow : Option (List Tuple)
deriving DecidableEq, Repr

/-- The changed-field extraction in `Result.__init__`:
`enumerate(zip(fromRow[0], toRow[0]))`, keeping the indices at which the two
tuples differ. -/
def zipDiff : List Value → List Value → Nat → List (Nat × (Value × Value))
  | a :: as, b :: bs, i => (if a ≠ b then [(i, (a, b))] else []) ++ zipDiff as bs (i + 1)
  | _, _, _ => []

/-- `Result.__init__`: the changed-field dict is populated only when both
sides are present with exactly one row each. -/
def mkResult (key : List Value) (diffFields : List (String × Nat))
    (fromRow toRow : Option (List Tuple)) : Result :=
  let d :=
    match fromRow, toRow with
    | some [f], some [t] => zipDiff f t 0
    | _, _ => []
  { key := key, diffFields := diffFields, data := d,
    fromRow := fromRow, toRow := toRow }

/-- `Result.__bool__`: significant iff some changed field remains, a side is
absent, or the row counts differ. -/
def Result.truthy (r : Result) : Bool :=
  !r.data.isEmpty || r.fromRow.isNone || r.toRow.isNone ||
    !((r.fromRow.getD []).length == (r.toRow.getD []).length)

/-- Python dict equality on the changed-field dicts (order-insensitive). -/
def dataEq (d1 d2 : List (Nat × (Value × Value))) : Bool :=
  d1.length == d2.length && d1.all (fun kv => decide (d2.lookup kv.1 = some kv.2))

/-- `Result.__eq__` between two `Result`s: equal keys and equal changed-field
dicts. -/
def resultEq (r1 r2 : Result) : Bool :=
  decide (r1.key = r2.key) && dataEq r1.data r2.data

/-- `del d[i]` on the changed-field dict (keys are unique). -/
def eraseField (d : List (Nat × (Value × Value))) (i : Nat) :
    List (Nat × (Value × Value)) :=
  d.filter (fun kv => kv.1 != i)

/-- `Result.ignoreField`: drop the field's recorded diff unconditionally.
(`field in self` indexes `diffFields[field]`, which presupposes a known diff
header; an unknown field is modelled as a no-op.) -/
def Result.ignoreFld (r : Result) (field : String) : Result :=
  match r.diffFields.lookup field with
  | some i => { r with data := eraseField r.data i }
  | none => r

/-- `Result.checkRemove`: drop the field's diff when the predicate holds on
its (from, to) pair. -/
def Result.checkRemove (r : Result) (field : String) (g : Value → Value → Bool) : Result :=
  match r.diffFields.lookup field with
  | some i =>
    match r.data.lookup i with
    | some ft => if g ft.1 ft.2 then { r with data := eraseField r.data i } else r
    | none => r
  | none => r

/-- `Result.checkRemove_multiField`: drop a whole set of fields together
when the predicate holds on them jointly; a no-op when any of them has no
recorded diff. -/
def Result.checkRemoveMulti (r : Result) (g : Row → Row → Bool) (fields : List String) : Result :=
  match fields.mapM (fun f => (r.diffFields.lookup f).map (fun i => (f, i))) with
  | none => r
  | some fieldIdxs =>
    if fieldIdxs.all (fun fi => (r.data.lookup fi.2).isSome) then
      let fromR : Row := fieldIdxs.map (fun fi => (fi.1, ((r.data.lookup fi.2).getD (.null, .null)).1))
      let toR : Row := fieldIdxs.map (fun fi => (fi.1, ((r.data.lookup fi.2).getD (.null, .null)).2))
      if g fromR toR then
        let d' := fieldIdxs.foldl (fun d fi => eraseField d fi.2) r.data
        { r with data := d' }
      else r
    else r

/-- `Result.originalFromRows`: rebuild the original from-rows from the
stored tuples and the key.  `AttributeDict.__add__` (util module, not in
src/) is modelled from the spec as a dict merge with the key fields. -/
def Result.originalFromRows (r : Result) (keyFields : List String) : List Row :=
  (r.fromRow.getD []).map (fun fr =>
    r.diffFields.map (fun fi => (fi.1, fr.getD fi.2 Value.null)) ++ keyFields.zip r.key)

/-- `Result.originalToRows`: the to-side counterpart. -/
def Result.originalToRows (r : Result) (keyFields : List String) : List Row :=
  (r.toRow.getD []).map (fun tr =>
    r.diffFields.map (fun fi => (fi.1, tr.getD fi.2 Value.null)) ++ keyFields.zip r.key)

/-- `Result.customCheck`: valid only when both sides are exactly one row;
re-derives the original rows and drops the named fields when the predicate
holds on them. -/
def Result.customCheck (r : Result) (keyFields : List String)
    (g : Row → Row → Bool) (fieldsToRemove : List String) : Result :=
  match r.fromRow, r.toRow with
  | some [_], some [_] =>
    let fromR := (r.originalFromRows keyFields).getD 0 []
    let toR := (r.originalToRows keyFields).getD 0 []
    if g fromR toR then
      let d' := fieldsToRemove.foldl
        (fun d f =>
          match r.diffFields.lookup f with
          | some i => eraseField d i
          | none => d) r.data
      { r with data := d' }
    else r
  | _, _ => r

/-- A `ResultSet`'s contents: the contained results in iteration order
(`__data` groups them by bucket key; the grouping is keyed bookkeeping and
equality never crosses distinct keys).  Each result carries an identity tag
(Python object identity) so that the suppression loops' in-place mutation
and `list.remove`'s first-equal deletion are expressible. -/
abbrev RSState := List (Nat × Result)

/-- A tag not used by any entry. -/
def freshId (s : RSState) : Nat := (s.map Prod.fst).foldl max 0 + 1

/-- `ResultSet.__iadd__`: append the result only when it is truthy. -/
def iaddRS (s : RSState) (r : Result) : RSState :=
  if r.truthy then s ++ [(freshId s, r)] else s

/-- `list.remove`: delete the first entry equal (under `Result.__eq__`) to
the given result. -/
def removeFirstEq (r' : Result) : RSState → RSState
  | [] => []
  | p :: rest => if resultEq p.2 r' then rest else p :: removeFirstEq r' rest

/-- Find the entry carrying an identity tag. -/
def alookupN (id : Nat) : RSState → Option Result
  | [] => none
  | p :: rest => if p.1 = id then some p.2 else alookupN id rest

/-- One iteration of a suppression loop `for result in list(self):
mutate(result); if not result: del self[result]`: the identified result is
mutated in place, then deleted by first-equal when it has become falsy. -/
def suppressStep (f : Result → Result) (s : RSState) (id : Nat) : RSState :=
  match alookupN id s with
  | none => s
  | some r =>
    let r' := f r
    let s' := s.map (fun p => if p.1 = id then (id, r') else p)
    if r'.truthy then s' else removeFirstEq r' s'

/-- A whole suppression pass over the snapshot `list(self)`. -/
def suppressLoop (f : Result → Result) (s : RSState) : RSState :=
  (s.map Prod.fst).foldl (suppressStep f) s

/-- `ResultSet.ignoreField`. -/
def rsIgnoreField (s : RSState) (field : String) : RSState :=
  suppressLoop (fun r => r.ignoreFld field) s

/-- `ResultSet.checkRemove`. -/
def rsCheckRemove (s : RSState) (field : String) (g : Value → Value → Bool) : RSState :=
  suppressLoop (fun r => r.checkRemove field g) s

/-- `ResultSet.checkRemove_multiField`. -/
def rsCheckRemoveMulti (s : RSState) (g : Row → Row → Bool) (fields : List String) : RSState :=
  suppressLoop (fun r => r.checkRemoveMulti g fields) s

/-- `ResultSet.customCheck`. -/
def rsCustomCheck (s : RSState) (keyFields : List String) (g : Row → Row → Bool)
    (fieldsToRemove : List String) : RSState :=
  suppressLoop (fun r => r.customCheck keyFields g fieldsToRemove) s

/-- The bucket fields actually present on one side (`[b for b in buckets if
b in table.headers()]`). -/
def bucketHeadersFor (t : DataTable) (buckets : List String) : List String :=
  buckets.filter (fun b => t.headers.contains b)

/-- `commonOtherHeaders`: both header sets intersected, minus the bucket
fields.  Python materialises a `set` whose iteration order is unspecified;
it is modelled in the from-table's sorted header order (the claims are
insensitive to this order). -/
def commonOtherHeaders (fromT toT : DataTable) (buckets : List String) : List String :=
  fromT.headers.filter (fun h => toT.headers.contains h && !buckets.contains h)

/-- One side's remaining headers (`fromOtherHeaders` / `toOtherHeaders`). -/
def otherHeadersFor (t : DataTable) (bucketHeaders common : List String) : List String :=
  t.headers.filter (fun h => !bucketHeaders.contains h && !common.contains h)

/-- The combined diff header index order: common, then from-only, then
to-only. -/
def diffHeadersList (fromT toT : DataTable) (buckets : List String) : List String :=
  let common := commonOtherHeaders fromT toT buckets
  common ++ otherHeadersFor fromT (bucketHeadersFor fromT buckets) common
    ++ otherHeadersFor toT (bucketHeadersFor toT buckets) common

/-- `{h: i for i, h in enumerate(...)}` as an association list. -/
def withIdx : List String → Nat → List (String × Nat)
  | [], _ => []
  | h :: hs, i => (h, i) :: withIdx hs (i + 1)

/-- The `diffHeaders` field→index dict. -/
def diffFieldsOf (fromT toT : DataTable) (buckets : List String) : List (String × Nat) :=
  withIdx (diffHeadersList fromT toT buckets) 0

/-- The fixed-position tuple of one row, aligned to `diffHeaders` (missing
header ⇒ null placeholder): `tuple((row[h] if h in row else None) ...)`. -/
def tupleOf (dhl : List String) (r : Row) : Tuple := dhl.map (fun h => rowGetD r h)

/-- `datatable_diff._bucket`: key each row by its bucket-field values and
collect the aligned tuples. -/
def diffBucket (t : DataTable) (bucketHeaders dhl : List String) :
    List (List Value × List Tuple) :=
  t.rows.foldl (fun acc r => addToBucket acc (keyOfD r bucketHeaders) (tupleOf dhl r)) []

/-- Lexicographic comparison of aligned tuples under the total value order
(`sortRowKey`). -/
def tupleCmp : Tuple → Tuple → Ordering
  | [], [] => .eq
  | [], _ :: _ => .lt
  | _ :: _, [] => .gt
  | a :: as, b :: bs =>
    match valueCmp a b with
    | .eq => tupleCmp as bs
    | o => o

/-- `a <= b` on aligned tuples. -/
def tupleLe (a b : Tuple) : Bool := tupleCmp a b != .gt

/-- `sorted(bucket, key=sortRowKey)`.  (The tuple order is antisymmetric —
equal-comparing tuples are equal — so the sorted output is unique and an
insertion sort produces exactly what Python's stable sort does.) -/
def sortBucket (l : List Tuple) : List Tuple :=
  l.insertionSort (fun a b => tupleLe a b = true)

/-- `set(fromBuckets.keys()).union(toBuckets.keys())`, modelled in
first-seen order (Python set iteration order is unspecified; the `ResultSet`
is keyed, so no claim depends on this order). -/
def allKeysOf {α : Type} (fromBuckets toBuckets : List (List Value × α)) :
    List (List Value) :=
  (fromBuckets.map Prod.fst ++ toBuckets.map Prod.fst).dedup

/-- The per-key body of `diff`'s main loop: sort each present side's bucket;
when both are non-empty with equal row counts, pair positionally and build
one `Result` per pair, otherwise build a single `Result` for the whole
bucket. -/
def diffKeyResults (key : List Value) (diffFields : List (String × Nat))
    (fromBuckets toBuckets : List (List Value × List Tuple)) : List Result :=
  let fb := (alookup key fromBuckets).map sortBucket
  let tb := (alookup key toBuckets).map sortBucket
  match fb, tb with
  | some l1, some l2 =>
    if l1 ≠ [] ∧ l2 ≠ [] ∧ l1.length = l2.length then
      (l1.zip l2).map (fun ft => mkResult key diffFields (some [ft.1]) (some [ft.2]))
    else [mkResult key diffFields (some l1) (some l2)]
  | f, t => [mkResult key diffFields f t]

/-- `datatable_diff.diff`: bucket both tables, then fold every key's
results into the `ResultSet` via `__iadd__`. -/
def diff (fromT toT : DataTable) (buckets : List String) : RSState :=
  let df := diffFieldsOf fromT toT buckets
  let dhl := diffHeadersList fromT toT buckets
  let fromBuckets := diffBucket fromT (bucketHeadersFor fromT buckets) dhl
  let toBuckets := diffBucket toT (bucketHeadersFor toT buckets) dhl
  (allKeysOf fromBuckets toBuckets).foldl
    (fun s key => (diffKeyResults key df fromBuckets toBuckets).foldl iaddRS s) []

/-- Every result contained in the state is significant (`Result.__bool__`).
This is the invariant the claims call "a Result contained in a ResultSet is
significant". -/
def allTruthy (s : RSState) : Prop := ∀ p ∈ s, p.2.truthy = true

/-- A pair-diff result: both sides present with exactly one row each — the
shape of every Result a `diff` produces for a key whose buckets have equal
row counts. -/
def isPairR (r : Result) : Prop :=
  (∃ x, r.fromRow = some [x]) ∧ (∃ y, r.toRow = some [y])

/-- Distinct contained results sharing a bucket key are pair-diff results
(a count-mismatch result is always alone under its key): the structure
`diff` gives a ResultSet. -/
def pairKeyInv (s : RSState) : Prop :=
  ∀ p ∈ s, ∀ q ∈ s, p.1 ≠ q.1 → p.2.key = q.2.key → isPairR p.2

/-- Identity tags are distinct (they model Python object identity). -/
def idsNodup (s : RSState) : Prop := (s.map Prod.fst).Nodup

/-- The structural invariant of a diff-produced ResultSet. -/
def GoodState (s : RSState) : Prop := idsNodup s ∧ allTruthy s ∧ pairKeyInv s

/-- A per-Result suppression only edits the changed-field dict: the key and
the originating rows are untouched.  All four suppression operations have
this shape. -/
def ShapePreserving (f : Result → Result) : Prop :=
  ∀ r, (f r).key = r.key ∧ (f r).fromRow = r.fromRow ∧ (f r).toRow = r.toRow

/-! ### Helper lemmas: the string order -/

theorem charLe_total (a b : Char) : charLe a b = true ∨ charLe b a = true := by
  simp only [charLe, Nat.ble_eq]
  exact Nat.le_total _ _

theorem charLe_iff (a b : Char) : charLe a b = true ↔ a.toNat ≤ b.toNat := by
  simp [charLe, Nat.ble_eq]

theorem char_toNat_inj {a b : Char} (h : a.toNat = b.toNat) : a = b :=
  Char.ext (UInt32.toNat.inj h)

theorem charsLe_refl (a : List Char) : charsLe a a = true := by
  induction a with
  | nil => rfl
  | cons x xs ih => simp [charsLe, ih]

theorem charsLe_total (a b : List Char) : charsLe a b = true ∨ charsLe b a = true := by
  induction a generalizing b with
  | nil => left; rfl
  | cons x xs ih =>
    cases b with
    | nil => right; rfl
    | cons y ys =>
      by_cases hxy : x = y
      · subst hxy
        simpa [charsLe] using ih ys
      · have hne : y ≠ x := fun h => hxy h.symm
        simpa [charsLe, hxy, hne] using charLe_total x y

theorem charsLe_antisymm {a b : List Char} (h1 : charsLe a b = true)
    (h2 : charsLe b a = true) : a = b := by
  induction a generalizing b with
  | nil =>
    cases b with
    | nil => rfl
    | cons y ys => simp [charsLe] at h2
  | cons x xs ih =>
    cases b with
    | nil => simp [charsLe] at h1
    | cons y ys =>
      by_cases hxy : x = y
      · subst hxy
        simp only [charsLe, if_pos rfl] at h1 h2
        exact congrArg (x :: ·) (ih h1 h2)
      · have hne : y ≠ x := fun h => hxy h.symm
        rw [charsLe, if_neg hxy] at h1
        rw [charsLe, if_neg hne] at h2
        exact absurd (char_toNat_inj (Nat.le_antisymm ((charLe_iff _ _).mp h1)
          ((charLe_iff _ _).mp h2))) hxy

theorem charsLe_trans {a b c : List Char} (h1 : charsLe a b = true)
    (h2 : charsLe b c = true) : charsLe a c = true := by
  induction a generalizing b c with
  | nil => rfl
  | cons x xs ih =>
    cases b with
    | nil => simp [charsLe] at h1
    | cons y ys =>
      cases c with
      | nil => simp [charsLe] at h2
      | cons z zs =>
        by_cases hxy : x = y
        · subst hxy
          rw [charsLe, if_pos rfl] at h1
          by_cases hyz : x = z
          · subst hyz
            rw [charsLe, if_pos rfl] at h2 ⊢
            exact ih h1 h2
          · rw [charsLe, if_neg hyz] at h2 ⊢
            exact h2
        · rw [charsLe, if_neg hxy] at h1
          by_cases hyz : y = z
          · subst hyz
            rw [charsLe, if_neg hxy]
            exact h1
          · rw [charsLe, if_neg hyz] at h2
            have hx := (charLe_iff _ _).mp h1
            have hy := (charLe_iff _ _).mp h2
            have hxz : x ≠ z := by
              intro h
              subst h
              exact hxy (char_toNat_inj (Nat.le_antisymm hx hy))
            rw [charsLe, if_neg hxz]
            exact (charLe_iff _ _).mpr (Nat.le_trans hx hy)

theorem strLe_total (a b : String) : (strLe a b || strLe b a) = true := by
  rcases charsLe_total a.data b.data with h | h <;> simp [strLe, h]

theorem strLe_trans {a b c : String} (h1 : strLe a b = true) (h2 : strLe b c = true) :
    strLe a c = true :=
  charsLe_trans h1 h2

theorem strLe_trans' : ∀ a b c : String, strLe a b = true → strLe b c = true →
    strLe a c = true := fun _ _ _ h1 h2 => strLe_trans h1 h2

theorem strLe_antisymm {a b : String} (h1 : strLe a b = true) (h2 : strLe b a = true) :
    a = b :=
  String.ext (charsLe_antisymm h1 h2)

instance : IsAntisymm String (fun a b => strLe a b = true) := ⟨fun _ _ => strLe_antisymm⟩

instance : IsTotal String (fun a b => strLe a b = true) :=
  ⟨fun a b => by simpa using Bool.or_eq_true_iff.mp (strLe_total a b)⟩

instance : IsTrans String (fun a b => strLe a b = true) :=
  ⟨fun a b c => strLe_trans' a b c⟩

theorem pySorted_perm (l : List String) : (pySorted l).Perm l :=
  List.perm_insertionSort _ l

theorem pySorted_sorted (l : List String) :
    List.Sorted (fun a b => strLe a b = true) (pySorted l) :=
  List.sorted_insertionSort _ l

theorem pySorted_mem {l : List String} {a : String} : a ∈ pySorted l ↔ a ∈ l :=
  (pySorted_perm l).mem_iff

theorem pySorted_nodup {l : List String} (h : l.Nodup) : (pySorted l).Nodup :=
  ((pySorted_perm l).symm.nodup h)

theorem pySorted_eq_of_perm {l1 l2 : List String} (h : l1.Perm l2) :
    pySorted l1 = pySorted l2 :=
  List.eq_of_perm_of_sorted ((pySorted_perm l1).trans (h.trans (pySorted_perm l2).symm))
    (pySorted_sorted l1) (pySorted_sorted l2)

/-! ### Helper lemmas: dict lookups -/

theorem rowKeys_nil : rowKeys [] = [] := rfl

theorem rowKeys_cons (p : String × Value) (r : Row) :
    rowKeys (p :: r) = p.1 :: rowKeys r := rfl

theorem rowKeys_append (r1 r2 : Row) :
    rowKeys (r1 ++ r2) = rowKeys r1 ++ rowKeys r2 := by
  simp [rowKeys]

theorem lookup_append_left {r1 r2 : Row} {h : String} (hm : h ∈ rowKeys r1) :
    (r1 ++ r2).lookup h = r1.lookup h := by
  induction r1 with
  | nil => simp [rowKeys] at hm
  | cons p rest ih =>
    rcases p with ⟨k, v⟩
    by_cases hk : h = k
    · subst hk
      simp [List.lookup_cons]
    · rw [rowKeys_cons, List.mem_cons] at hm
      have : h ∈ rowKeys rest := hm.resolve_left hk
      simp [List.lookup_cons, hk, ih this]

theorem lookup_append_right {r1 r2 : Row} {h : String} (hm : h ∉ rowKeys r1) :
    (r1 ++ r2).lookup h = r2.lookup h := by
  induction r1 with
  | nil => simp
  | cons p rest ih =>
    rcases p with ⟨k, v⟩
    rw [rowKeys_cons, List.mem_cons] at hm
    push_neg at hm
    have hb : (h == k) = false := beq_eq_false_iff_ne.mpr hm.1
    simp [List.lookup_cons, hb, ih hm.2]

theorem lookup_isSome_iff_mem {r : Row} {h : String} :
    (r.lookup h).isSome = true ↔ h ∈ rowKeys r := by
  induction r with
  | nil => simp [rowKeys]
  | cons p rest ih =>
    rcases p with ⟨k, v⟩
    rw [rowKeys_cons, List.mem_cons]
    by_cases hk : h = k
    · subst hk
      simp [List.lookup_cons]
    · have hb : (h == k) = false := beq_eq_false_iff_ne.mpr hk
      simp [List.lookup_cons, hb, hk, ih]

theorem lookup_map_const_null {hs : List String} {h : String} (hm : h ∈ hs) :
    (hs.map (fun h => (h, Value.null))).lookup h = some Value.null := by
  induction hs with
  | nil => simp at hm
  | cons k rest ih =>
    by_cases hk : h = k
    · subst hk
      simp [List.lookup_cons]
    · rw [List.mem_cons] at hm
      have : h ∈ rest := hm.resolve_left hk
      have hb : (h == k) = false := beq_eq_false_iff_ne.mpr hk
      simp [List.lookup_cons, hb, ih this]

theorem contains_iff {α : Type} [BEq α] [LawfulBEq α] (l : List α) (a : α) :
    l.contains a = true ↔ a ∈ l := List.elem_iff

theorem mem_collectHeaders {data : List Row} {h : String} :
    h ∈ collectHeaders data ↔ ∃ r ∈ data, h ∈ rowKeys r := by
  simp [collectHeaders, pySorted_mem, List.mem_dedup, List.mem_flatMap]

theorem collectHeaders_nodup (data : List Row) : (collectHeaders data).Nodup :=
  pySorted_nodup (List.nodup_dedup _)

theorem rowKeys_backfill (hs : List String) (r : Row) :
    rowKeys (backfillRow hs r) =
      rowKeys r ++ hs.filter (fun h => ¬ (rowKeys r).contains h) := by
  rw [backfillRow, rowKeys_append]
  congr 1
  rw [rowKeys, List.map_map]
  exact List.map_id _

theorem mem_backfill_filter {hs : List String} {r : Row} {a : String}
    (ha : a ∈ hs) (hk : a ∉ rowKeys r) :
    a ∈ hs.filter (fun h => ¬ (rowKeys r).contains h) := by
  refine List.mem_filter.mpr ⟨ha, ?_⟩
  simp only [decide_eq_true_eq]
  intro hc
  exact hk ((contains_iff _ _).mp hc)

theorem backfill_perm {data : List Row} {r : Row} (hr : r ∈ data)
    (hnd : (rowKeys r).Nodup) :
    (rowKeys (backfillRow (collectHeaders data) r)).Perm (collectHeaders data) := by
  rw [rowKeys_backfill]
  have hnd2 : (collectHeaders data).Nodup := collectHeaders_nodup data
  have hsub : ∀ a ∈ rowKeys r, a ∈ collectHeaders data := by
    intro a ha
    exact mem_collectHeaders.mpr ⟨r, hr, ha⟩
  apply (List.perm_ext_iff_of_nodup ?nd1 hnd2).mpr
  case nd1 =>
    apply List.Nodup.append hnd (hnd2.filter _)
    intro a ha hb
    have hpb := (List.mem_filter.mp hb).2
    simp only [decide_eq_true_eq] at hpb
    exact hpb ((contains_iff _ _).mpr ha)
  intro a
  constructor
  · intro ha
    rcases List.mem_append.mp ha with ha | ha
    · exact hsub a ha
    · exact (List.mem_filter.mp ha).1
  · intro ha
    by_cases hk : a ∈ rowKeys r
    · exact List.mem_append.mpr (Or.inl hk)
    · exact List.mem_append.mpr (Or.inr (mem_backfill_filter ha hk))

theorem backfill_lookup_null {hs : List String} {r : Row} {h : String}
    (hh : h ∈ hs) (hk : h ∉ rowKeys r) :
    (backfillRow hs r).lookup h = some Value.null := by
  rw [backfillRow, lookup_append_right hk]
  exact lookup_map_const_null (mem_backfill_filter hh hk)

/-- C2: every table constructed from a sequence of row-mappings stores, for
each input row, a row whose key set is exactly the table's header set, with
the headers missing from that input mapping present and bound to Null. -/
theorem claim_C2_header_invariant (data : List Row)
    (hwf : ∀ r ∈ data, (rowKeys r).Nodup) (i : Nat) (hi : i < data.length) :
    ((rowKeys ((dtFromRows data).1.rows.getD i [])).Perm ((dtFromRows data).1.headers)) ∧
    (∀ h ∈ (dtFromRows data).1.headers, h ∉ rowKeys (data.getD i []) →
      ((dtFromRows data).1.rows.getD i []).lookup h = some Value.null) := by
  have hne : data ≠ [] := by
    intro h
    rw [h] at hi
    exact absurd hi (by simp)
  have hrows : (dtFromRows data).1.rows = data.map (backfillRow (collectHeaders data)) := by
    simp [dtFromRows, hne]
  have hhdrs : (dtFromRows data).1.headersRaw = collectHeaders data := by
    simp [dtFromRows, hne]
  have hget : (dtFromRows data).1.rows.getD i [] =
      backfillRow (collectHeaders data) (data.getD i []) := by
    rw [hrows]
    rw [List.getD_eq_getElem?_getD, List.getD_eq_getElem?_getD, List.getElem?_map]
    rw [List.getElem?_eq_getElem hi]
    rfl
  have hmem : data.getD i [] ∈ data := by
    rw [List.getD_eq_getElem?_getD, List.getElem?_eq_getElem hi]
    exact List.getElem_mem hi
  have hperm : ((dtFromRows data).1.headers).Perm (collectHeaders data) := by
    rw [DataTable.headers, hhdrs]
    exact pySorted_perm _
  constructor
  · rw [hget]
    exact (backfill_perm hmem (hwf _ hmem)).trans hperm.symm
  · intro h hh hk
    rw [hget]
    exact backfill_lookup_null (hperm.mem_iff.mp hh) hk

/-- C2 witness. -/
theorem claim_C2_header_invariant_witness :
    (rowKeys ((dtFromRows [[("a", Value.int 1)], []]).1.rows.getD 1 [])).Perm
      ((dtFromRows [[("a", Value.int 1)], []]).1.headers) ∧
    (∀ h ∈ (dtFromRows [[("a", Value.int 1)], []]).1.headers,
      h ∉ rowKeys (([[("a", Value.int 1)], []] : List Row).getD 1 []) →
      ((dtFromRows [[("a", Value.int 1)], []]).1.rows.getD 1 []).lookup h
        = some Value.null) :=
  claim_C2_header_invariant [[("a", Value.int 1)], []] (by decide) 1 (by decide)

/-- C10: constructing a table from row dicts with differing key sets writes
every missing header into the caller's original dict objects with a Null
value (leaving the present bindings intact), and the table's own row storage
is copied from those already-mutated dicts. -/
theorem claim_C10_constructor_mutates (data : List Row) (i : Nat) (hi : i < data.length) :
    (∀ k v, (data.getD i []).lookup k = some v →
      ((dtFromRows data).2.getD i []).lookup k = some v) ∧
    (∀ h ∈ collectHeaders data, h ∉ rowKeys (data.getD i []) →
      ((dtFromRows data).2.getD i []).lookup h = some Value.null) ∧
    ((∃ h ∈ collectHeaders data, h ∉ rowKeys (data.getD i [])) →
      (dtFromRows data).2.getD i [] ≠ data.getD i []) ∧
    ((dtFromRows data).1.rows = (dtFromRows data).2) := by
  have hne : data ≠ [] := by
    intro h
    rw [h] at hi
    exact absurd hi (by simp)
  have hpost : (dtFromRows data).2 = data.map (backfillRow (collectHeaders data)) := by
    simp [dtFromRows, hne]
  have hget : (dtFromRows data).2.getD i [] =
      backfillRow (collectHeaders data) (data.getD i []) := by
    rw [hpost]
    rw [List.getD_eq_getElem?_getD, List.getD_eq_getElem?_getD, List.getElem?_map]
    rw [List.getElem?_eq_getElem hi]
    rfl
  refine ⟨?_, ?_, ?_, ?_⟩
  · intro k v hkv
    rw [hget, backfillRow]
    rw [lookup_append_left (lookup_isSome_iff_mem.mp (by rw [hkv]; rfl))]
    exact hkv
  · intro h hh hk
    rw [hget]
    exact backfill_lookup_null hh hk
  · rintro ⟨h, hh, hk⟩ heq
    rw [hget, backfillRow] at heq
    have happ := List.append_right_eq_self.mp heq
    have hfil := List.map_eq_nil_iff.mp happ
    have hmem := mem_backfill_filter (r := data.getD i []) hh hk
    rw [hfil] at hmem
    exact absurd hmem (by simp)
  · by_cases hd : data = [] <;> simp [dtFromRows, hd]

/-- C10 witness. -/
theorem claim_C10_constructor_mutates_witness :
    ((dtFromRows [[("a", Value.int 1)], [("b", Value.int 2)]]).2.getD 0 []).lookup "b"
        = some Value.null ∧
    (dtFromRows [[("a", Value.int 1)], [("b", Value.int 2)]]).2.getD 0 []
        ≠ ([[("a", Value.int 1)], [("b", Value.int 2)]] : List Row).getD 0 [] := by
  have h := claim_C10_constructor_mutates [[("a", Value.int 1)], [("b", Value.int 2)]] 0
    (by decide)
  exact ⟨h.2.1 "b" (by decide) (by decide), h.2.2.1 ⟨"b", by decide, by decide⟩⟩

/-- C3 counterexample: a table with headers `["a"]` but zero rows is an
empty table, yet concatenating a non-empty table onto it raises — the code
tests header-set emptiness, not row emptiness, so "either side empty (of
rows)" does not make the sides header-compatible. -/
theorem claim_C3_union_counterexample :
    (dtFromHeaderRows ["a"] []).rows.length = 0 ∧
    iaddDT (dtFromHeaderRows ["a"] []) (dtFromRows [[("b", Value.int 1)]]).1
      = .error (.dataTableErr "headers don't match") := by
  constructor
  · rfl
  · rfl

/-- C3 amended: union/concatenate raises `HeaderMismatchError` exactly when
both tables have non-empty header sets and their sorted header lists differ
(row counts are irrelevant); whenever it does not raise it appends all rows
of the right operand to the left operand's rows, in order, keeping the left
operand's header dict. -/
theorem claim_C3_union_amended (t1 t2 : DataTable) :
    (((iaddDT t1 t2).isOk = false) ↔
      (t1.headers ≠ [] ∧ t2.headers ≠ [] ∧ t1.headers ≠ t2.headers)) ∧
    (∀ r, iaddDT t1 t2 = .ok r →
      r.rows = t1.rows ++ t2.rows ∧ r.headersRaw = t1.headersRaw) := by
  unfold iaddDT
  by_cases hc : t1.headers ≠ [] ∧ t2.headers ≠ [] ∧ t1.headers ≠ t2.headers
  · rw [if_pos hc]
    refine ⟨iff_of_true rfl hc, ?_⟩
    intro r hr
    exact absurd hr (by simp)
  · rw [if_neg hc]
    refine ⟨iff_of_false (fun hfalse => nomatch hfalse) hc, ?_⟩
    intro r hr
    have h2 : (⟨t1.headersRaw, t1.rows ++ t2.rows⟩ : DataTable) = r := by
      simpa using hr
    rw [← h2]
    exact ⟨rfl, rfl⟩

/-- C3 amended witness: a compatible pair really concatenates. -/
theorem claim_C3_union_amended_witness :
    (dtFromRows [[("a", Value.int 1)]]).1.rows ++ (dtFromRows [[("a", Value.int 2)]]).1.rows
      = [[("a", Value.int 1)], [("a", Value.int 2)]] := by
  have h := claim_C3_union_amended (dtFromRows [[("a", Value.int 1)]]).1
    (dtFromRows [[("a", Value.int 2)]]).1
  have hr := h.2 ⟨["a"], [[("a", Value.int 1)], [("a", Value.int 2)]]⟩ rfl
  exact hr.1.symm

/-- C9 counterexample: on an empty bucket `Sum` returns the substitute value
`0` rather than failing, and `Average` raises a `ZeroDivisionError` rather
than an `EmptyBucketError` (no such error exists anywhere in the code). -/
theorem claim_C9_aggregate_counterexample :
    aggSum "v" ⟨[], []⟩ = .ok (Value.int 0) ∧
    aggAverage "v" ⟨[], []⟩ = .error .zeroDiv := by
  exact ⟨rfl, rfl⟩

/-- C9 amended: on an empty bucket `Sum` returns `0`; `Average` raises
`ZeroDivisionError`; `Min`, `Max` and the `Span` body raise `ValueError`
(and the `Span` class cannot even be instantiated with a field, having no
`__init__`).  No `EmptyBucketError` is raised anywhere. -/
theorem claim_C9_aggregate_amended (t : DataTable) (field : String)
    (h : t.rows = []) :
    aggSum field t = .ok (Value.int 0) ∧
    aggAverage field t = .error .zeroDiv ∧
    aggMin field t = .error .valueErr ∧
    aggMax field t = .error .valueErr ∧
    aggSpan field t = .error .valueErr := by
  have hc : columnValues t field = [] := by
    unfold columnValues
    rw [h]
    by_cases hh : t.headersRaw.contains field = true <;> simp [hh]
  refine ⟨?_, ?_, ?_, ?_, ?_⟩
  · rw [aggSum, hc]
    rfl
  · rw [aggAverage, hc, h]
    rfl
  · rw [aggMin, hc]
    rfl
  · rw [aggMax, hc]
    rfl
  · rw [aggSpan, hc]
    rfl

/-- C9 amended witness: an empty bucket that still has headers. -/
theorem claim_C9_aggregate_amended_witness :
    aggSum "v" ⟨["v"], []⟩ = .ok (Value.int 0) ∧
    aggAverage "v" ⟨["v"], []⟩ = .error .zeroDiv ∧
    aggMin "v" ⟨["v"], []⟩ = .error .valueErr ∧
    aggMax "v" ⟨["v"], []⟩ = .error .valueErr ∧
    aggSpan "v" ⟨["v"], []⟩ = .error .valueErr :=
  claim_C9_aggregate_amended ⟨["v"], []⟩ "v" rfl

/-- C7: evaluating the code at the failing input.  For the one-row table
`[{a: 1}]` and the absent header `"b"`, iterating the (NullColumn) column
yields nothing as specified, but `filter` — whatever the criterion — raises
a `KeyError` instead of returning an empty table: `NullColumn.__filter` is
dead code (Python name mangling makes the inherited `DataColumn.filter`
call `_DataColumn__filter`), so the `DataColumn` body runs and indexes the
missing header on the first row. -/
theorem claim_C7_nullcolumn_filter_keyerror :
    columnValues (dtFromRows [[("a", Value.int 1)]]).1 "b" = [] ∧
    columnFilterTable (dtFromRows [[("a", Value.int 1)]]).1 "b" (.literal (Value.int 1))
      = .error .keyErr ∧
    columnFilterTable (dtFromRows [[("a", Value.int 1)]]).1 "b" .isNull
      = .error .keyErr := by
  exact ⟨rfl, rfl, rfl⟩

/-! ### Helper lemmas: monadic evaluation and buckets -/

theorem exc_bind_ok {α β : Type} (a : α) (f : α → Except PyErr β) :
    (Except.ok a : Except PyErr α) >>= f = f a := rfl

theorem exc_bind_pure {α β : Type} (a : α) (f : α → Except PyErr β) :
    (pure a : Except PyErr α) >>= f = f a := rfl

theorem mapM_ok {α β : Type} (l : List α) (f : α → Except PyErr β) (g : α → β)
    (hf : ∀ x ∈ l, f x = .ok (g x)) : l.mapM f = .ok (l.map g) := by
  induction l with
  | nil => rfl
  | cons x xs ih =>
    rw [List.mapM_cons, hf x (List.mem_cons_self x xs), List.map_cons,
      ih (fun y hy => hf y (List.mem_cons_of_mem x hy))]
    rfl

theorem rowItem_ok {r : Row} {f : String} (hf : f ∈ rowKeys r) :
    rowItem r f = .ok (rowGetD r f) := by
  rcases Option.isSome_iff_exists.mp (lookup_isSome_iff_mem.mpr hf) with ⟨v, hv⟩
  rw [rowItem, hv, rowGetD, hv]
  rfl

theorem keyOf_ok {r : Row} {fields : List String} (hf : ∀ f ∈ fields, f ∈ rowKeys r) :
    keyOf r fields = .ok (keyOfD r fields) :=
  mapM_ok fields _ _ (fun f hm => rowItem_ok (hf f hm))

theorem eraseHeaders_ok {hs vs : List String} (hnd : hs.Nodup) (hvnd : vs.Nodup)
    (hsub : ∀ v ∈ vs, v ∈ hs) :
    eraseHeaders hs vs = .ok (hs.filter (fun h => ¬ vs.contains h)) := by
  induction vs generalizing hs with
  | nil =>
    show Except.ok hs = Except.ok (hs.filter (fun h => ¬ ([] : List String).contains h))
    congr 1
    symm
    apply List.filter_eq_self.mpr
    intro x _
    rfl
  | cons v vs ih =>
    have hv : hs.contains v = true := (contains_iff _ _).mpr (hsub v (by simp))
    have hstep : eraseHeaders hs (v :: vs) = eraseHeaders (hs.erase v) vs := by
      rw [eraseHeaders, List.foldlM_cons, if_pos hv]
      rfl
    rw [hstep, ih (hnd.erase v) (List.Nodup.of_cons hvnd) ?sub]
    case sub =>
      intro w hw
      have hne : w ≠ v := by
        intro he
        subst he
        exact (List.nodup_cons.mp hvnd).1 hw
      exact (List.mem_erase_of_ne hne).mpr (hsub w (List.mem_cons_of_mem v hw))
    congr 1
    rw [hnd.erase_eq_filter v, List.filter_filter]
    apply List.filter_congr
    intro h _
    by_cases h1 : h = v
    · subst h1
      have hc : (h :: vs).contains h = true := by
        simp [List.contains_cons]
      rw [hc]
      simp [bne_self_eq_false]
    · have hcc : (v :: vs).contains h = vs.contains h := by
        rw [List.contains_cons, beq_eq_false_iff_ne.mpr h1, Bool.false_or]
      rw [hcc]
      have hb : (h != v) = true := by
        simp [bne, beq_eq_false_iff_ne.mpr h1]
      rw [hb, Bool.and_true]

theorem alookup_cons {α : Type} (k pk : List Value) (pv : α)
    (rest : List (List Value × α)) :
    alookup k ((pk, pv) :: rest) = if pk = k then some pv else alookup k rest := rfl

theorem alookup_append_update {α : Type} (acc : List (List Value × List α))
    (k k' : List Value) (x : α) :
    alookup k (acc.map (fun p => if p.1 = k' then (p.1, p.2 ++ [x]) else p)) =
      if k' = k then (alookup k' acc).map (· ++ [x]) else alookup k acc := by
  induction acc with
  | nil => by_cases h : k' = k <;> simp [alookup, h]
  | cons p rest ih =>
    rcases p with ⟨pk, pv⟩
    rw [List.map_cons]
    by_cases h1 : pk = k'
    · subst h1
      rw [if_pos rfl]
      by_cases h2 : pk = k
      · subst h2
        simp [alookup_cons]
      · simp [alookup_cons, h2, ih]
    · rw [if_neg h1]
      by_cases h2 : pk = k
      · subst h2
        have h3 : ¬ (k' = pk) := fun he => h1 he.symm
        simp [alookup_cons, h3]
      · simp [alookup_cons, h1, h2, ih]

theorem alookup_append_single {α : Type} (acc : List (List Value × List α))
    (k k' : List Value) (x : α) :
    alookup k (acc ++ [(k', [x])]) =
      match alookup k acc with
      | some l => some l
      | none => if k' = k then some [x] else none := by
  induction acc with
  | nil => simp [alookup]
  | cons p rest ih =>
    rcases p with ⟨pk, pv⟩
    rw [List.cons_append, alookup_cons, alookup_cons]
    by_cases h : pk = k
    · rw [if_pos h, if_pos h]
    · rw [if_neg h, if_neg h, ih]

theorem alookup_addToBucket {α : Type} (acc : List (List Value × List α))
    (k k' : List Value) (x : α) :
    alookup k (addToBucket acc k' x) =
      if k' = k then some ((alookup k' acc).getD [] ++ [x]) else alookup k acc := by
  rw [addToBucket]
  cases hl : alookup k' acc with
  | some l =>
    rw [if_pos (by simp), alookup_append_update, hl]
    by_cases h : k' = k <;> simp [h]
  | none =>
    rw [if_neg (by simp), alookup_append_single]
    by_cases h : k' = k
    · subst h
      rw [hl]
      simp
    · cases hk : alookup k acc <;> simp [h]

theorem bucket_build_lookup {α : Type} (ps : List (List Value × α))
    (acc : List (List Value × List α)) (k : List Value) :
    alookup k (ps.foldl (fun a p => addToBucket a p.1 p.2) acc) =
      match alookup k acc with
      | some l => some (l ++ (ps.filter (fun p => p.1 = k)).map Prod.snd)
      | none =>
        if (ps.filter (fun p => p.1 = k)).isEmpty then none
        else some ((ps.filter (fun p => p.1 = k)).map Prod.snd) := by
  induction ps generalizing acc with
  | nil => cases h : alookup k acc <;> simp [h]
  | cons p ps ih =>
    rw [List.foldl_cons, ih, alookup_addToBucket]
    by_cases hk : p.1 = k
    · rw [if_pos hk, hk]
      have hf : List.filter (fun q => decide (q.1 = k)) (p :: ps)
          = p :: List.filter (fun q => decide (q.1 = k)) ps := by
        rw [List.filter_cons, if_pos (by simp [hk])]
      rw [hf]
      cases h : alookup k acc with
      | some l => simp [List.append_assoc]
      | none => simp
    · rw [if_neg hk]
      have hf : List.filter (fun q => decide (q.1 = k)) (p :: ps)
          = List.filter (fun q => decide (q.1 = k)) ps := by
        rw [List.filter_cons, if_neg (by simp [hk])]
      rw [hf]

theorem alookup_bucket_of_rows {α : Type} (rows : List α) (keyF : α → List Value)
    (k : List Value) :
    alookup k ((rows.map (fun r => (keyF r, r))).foldl
        (fun acc kr => addToBucket acc kr.1 kr.2) []) =
      (if (rows.filter (fun r => keyF r = k)).isEmpty then none
       else some (rows.filter (fun r => keyF r = k))) := by
  rw [bucket_build_lookup]
  have h1 : (rows.map (fun r => (keyF r, r))).filter (fun p => decide (p.1 = k))
      = (rows.filter (fun r => decide (keyF r = k))).map (fun r => (keyF r, r)) :=
    List.filter_map _ _
  show (if ((rows.map (fun r => (keyF r, r))).filter (fun p => decide (p.1 = k))).isEmpty
      then none
      else some (((rows.map (fun r => (keyF r, r))).filter
        (fun p => decide (p.1 = k))).map Prod.snd)) = _
  rw [h1, List.map_map]
  have h2 : (Prod.snd ∘ fun r => (keyF r, r)) = id := rfl
  rw [h2, List.map_id]
  have h3 : ((rows.filter (fun r => decide (keyF r = k))).map (fun r => (keyF r, r))).isEmpty
      = (rows.filter (fun r => decide (keyF r = k))).isEmpty := by
    cases rows.filter (fun r => decide (keyF r = k)) <;> rfl
  rw [h3]

theorem reduce_right {α β γ : Type} (rows : List α) (srows : List γ)
    (kf : γ → List Value) (ko : α → List Value) (rp : α → β) :
    (rows.map (fun r =>
        if (srows.map kf).contains (ko r) = true then none else some (rp r))).reduceOption
      = (rows.filter (fun r => srows.all (fun s => kf s ≠ ko r))).map rp := by
  induction rows with
  | nil => rfl
  | cons r rest ih =>
    rw [List.map_cons, List.filter_cons]
    cases hc : (srows.map kf).contains (ko r) with
    | true =>
      have hall : srows.all (fun s => decide (kf s ≠ ko r)) = false := by
        apply Bool.eq_false_iff.mpr
        intro hallT
        have hmem := (contains_iff (srows.map kf) (ko r)).mp hc
        rcases List.mem_map.mp hmem with ⟨s, hs, hks⟩
        have := List.all_eq_true.mp hallT s hs
        rw [hks] at this
        simp at this
      rw [if_pos rfl]
      show (none :: _).reduceOption = _
      rw [List.reduceOption_cons_of_none, ih, hall]
      rfl
    | false =>
      have hall : srows.all (fun s => decide (kf s ≠ ko r)) = true := by
        apply List.all_eq_true.mpr
        intro s hs
        simp only [decide_eq_true_eq]
        intro he
        have : ko r ∈ srows.map kf := List.mem_map.mpr ⟨s, hs, he⟩
        exact absurd ((contains_iff (srows.map kf) (ko r)).mpr this) (by rw [hc]; simp)
      rw [if_neg (by simp)]
      show (some (rp r) :: _).reduceOption = _
      rw [List.reduceOption_cons_of_some, ih, hall]
      rfl

theorem joinDict_eval (self other : DataTable) (jp : List (String × String))
    (pfx : String) (lj rj : Bool)
    (hnd : other.headersRaw.Nodup)
    (hvnd : (jp.map Prod.snd).Nodup)
    (hvs : ∀ v ∈ jp.map Prod.snd, v ∈ other.headers)
    (hko : ∀ orow ∈ other.rows, ∀ f ∈ jp.map Prod.snd, f ∈ rowKeys orow)
    (hks : ∀ row ∈ self.rows, ∀ f ∈ jp.map Prod.fst, f ∈ rowKeys row) :
    joinDict self other jp pfx lj rj =
      .ok (joinRowsSpec self other jp pfx lj rj,
        (dtFromRows (joinRowsSpec self other jp pfx lj rj)).1) := by
  have hnd' : (other.headers).Nodup := pySorted_nodup hnd
  unfold joinDict
  rw [eraseHeaders_ok hnd' hvnd hvs]
  rw [exc_bind_ok]
  rw [mapM_ok other.rows _ (fun orow => (keyOfD orow (jp.map Prod.snd), orow))
    (fun x hx => by rw [keyOf_ok (fun f hf => hko x hx f hf)]; rfl)]
  rw [exc_bind_ok]
  dsimp only
  rw [mapM_ok self.rows _ ((fun row =>
      match alookup (keyOfD row (jp.map Prod.fst))
          ((other.rows.map (fun orow => (keyOfD orow (jp.map Prod.snd), orow))).foldl
            (fun acc kr => addToBucket acc kr.1 kr.2) []) with
      | none => if lj then
          [joinLeftPad pfx (other.headers.filter (fun h => ¬ (jp.map Prod.snd).contains h)) row]
        else []
      | some otherRows => otherRows.map (fun orow =>
          joinMerge pfx (other.headers.filter (fun h => ¬ (jp.map Prod.snd).contains h)) row orow)) :
        Row → List Row)
    (fun x hx => by
      rw [keyOf_ok (fun f hf => hks x hx f hf), exc_bind_ok]
      dsimp only
      cases h : alookup (keyOfD x (List.map Prod.fst jp))
          (List.foldl (fun acc kr => addToBucket acc kr.1 kr.2) []
            (List.map (fun orow => (keyOfD orow (List.map Prod.snd jp), orow)) other.rows)) <;>
        rfl)]
  rw [exc_bind_ok]
  rw [mapM_ok self.rows _ (fun row => keyOfD row (jp.map Prod.fst))
    (fun x hx => keyOf_ok (fun f hf => hks x hx f hf))]
  rw [exc_bind_ok]
  have hpass1 : (List.map (fun row =>
      match alookup (keyOfD row (List.map Prod.fst jp))
          (List.foldl (fun acc kr => addToBucket acc kr.1 kr.2) []
            (List.map (fun orow => (keyOfD orow (List.map Prod.snd jp), orow)) other.rows)) with
      | none => if lj = true then
          [joinLeftPad pfx
            (List.filter (fun h => ¬ (List.map Prod.snd jp).contains h) other.headers) row]
        else []
      | some otherRows => List.map (fun orow =>
          joinMerge pfx
            (List.filter (fun h => ¬ (List.map Prod.snd jp).contains h) other.headers) row orow)
          otherRows) self.rows).flatten
    = self.rows.flatMap (fun row =>
        let ms := other.rows.filter
          (fun orow => keyOfD orow (List.map Prod.snd jp) = keyOfD row (List.map Prod.fst jp))
        if ms.isEmpty then (if lj = true then
            [joinLeftPad pfx
              (List.filter (fun h => ¬ (List.map Prod.snd jp).contains h) other.headers) row]
          else [])
        else ms.map (fun orow =>
          joinMerge pfx
            (List.filter (fun h => ¬ (List.map Prod.snd jp).contains h) other.headers) row orow)) := by
    show _ = (List.map _ self.rows).flatten
    congr 1
    apply List.map_congr_left
    intro row _
    rw [alookup_bucket_of_rows other.rows (fun orow => keyOfD orow (List.map Prod.snd jp))
      (keyOfD row (List.map Prod.fst jp))]
    dsimp only
    cases hemp : (other.rows.filter (fun orow =>
        decide (keyOfD orow (List.map Prod.snd jp) = keyOfD row (List.map Prod.fst jp)))).isEmpty
    · rw [if_neg (show ¬ (false = true) by simp)]
      dsimp only
      rw [if_neg (show ¬ (false = true) by simp)]
    · rw [if_pos (show (true = true) from rfl), if_pos (show (true = true) from rfl)]
  rw [hpass1]
  cases rj with
  | false =>
    unfold joinRowsSpec
    dsimp only
    rw [exc_bind_pure]
    simp
    rfl
  | true =>
    rw [mapM_ok other.rows _ (fun orow =>
        if (List.map (fun row => keyOfD row (List.map Prod.fst jp)) self.rows).contains
            (keyOfD orow (List.map Prod.snd jp)) = true
        then none else some (joinRightPad pfx self.headers orow))
      (fun x hx => by rw [keyOf_ok (fun f hf => hko x hx f hf)]; rfl)]
    rw [exc_bind_ok, exc_bind_pure]
    rw [reduce_right other.rows self.rows (fun row => keyOfD row (List.map Prod.fst jp))
      (fun orow => keyOfD orow (List.map Prod.snd jp)) (joinRightPad pfx self.headers)]
    unfold joinRowsSpec
    dsimp only
    simp
    rfl

/-- C4: for a non-empty join mapping over well-formed tables (the mapping's
key fields drawn from the respective header sets, the mapped other-side
fields distinct), `join` emits exactly the claim's rows: one merged row per
matching other-row for each self row (self's fields plus other's non-join
fields prefixed), a Null-padded row for an unmatched self row when
`leftJoin` and nothing otherwise, and — when `rightJoin` — one padded row
(self's fields Null, other's fields prefixed) per other-row whose key no
self row produced. -/
theorem claim_C4_join_semantics (self other : DataTable) (jp : List (String × String))
    (pfx : String) (lj rj : Bool)
    (hjp : jp ≠ [])
    (hwfs : WF self) (hwfo : WF other)
    (hfs : ∀ f ∈ jp.map Prod.fst, f ∈ self.headers)
    (hvs : ∀ v ∈ jp.map Prod.snd, v ∈ other.headers)
    (hvnd : (jp.map Prod.snd).Nodup) :
    join self other (.dict jp) pfx lj rj =
      .ok (joinRowsSpec self other jp pfx lj rj,
        (dtFromRows (joinRowsSpec self other jp pfx lj rj)).1) := by
  have hko : ∀ orow ∈ other.rows, ∀ f ∈ jp.map Prod.snd, f ∈ rowKeys orow := by
    intro orow ho f hf
    exact (hwfo.2 orow ho).mem_iff.mpr (pySorted_mem.mp (hvs f hf))
  have hks : ∀ row ∈ self.rows, ∀ f ∈ jp.map Prod.fst, f ∈ rowKeys row := by
    intro row hr f hf
    exact (hwfs.2 row hr).mem_iff.mpr (pySorted_mem.mp (hfs f hf))
  exact joinDict_eval self other jp pfx lj rj hwfo.1 hvnd hvs hko hks

/-- C4 witness: the spec's own example, `self = [{id:1,name:"a"},
{id:2,name:"b"}]`, `other = [{id:1,val:10}]`, joined on `id` with
`leftJoin`. -/
theorem claim_C4_join_semantics_witness :
    join (dtFromRows [[("id", Value.int 1), ("name", Value.str "a")],
        [("id", Value.int 2), ("name", Value.str "b")]]).1
      (dtFromRows [[("id", Value.int 1), ("val", Value.int 10)]]).1
      (.dict [("id", "id")]) "" true false
    = .ok ([[("id", Value.int 1), ("name", Value.str "a"), ("val", Value.int 10)],
        [("id", Value.int 2), ("name", Value.str "b"), ("val", Value.null)]],
      ⟨["id", "name", "val"],
        [[("id", Value.int 1), ("name", Value.str "a"), ("val", Value.int 10)],
          [("id", Value.int 2), ("name", Value.str "b"), ("val", Value.null)]]⟩) := by
  have h := claim_C4_join_semantics
    (dtFromRows [[("id", Value.int 1), ("name", Value.str "a")],
        [("id", Value.int 2), ("name", Value.str "b")]]).1
    (dtFromRows [[("id", Value.int 1), ("val", Value.int 10)]]).1
    [("id", "id")] "" true false (by decide)
    (by unfold WF; exact ⟨by decide, by decide⟩)
    (by unfold WF; exact ⟨by decide, by decide⟩)
    (by decide) (by decide) (by decide)
  rw [h]
  rfl

/-- C8 counterexample: joining with an *empty* mapping does not raise — it
keys every row by the empty tuple, so every self row matches every other
row and output rows are produced. -/
theorem claim_C8_join_empty_counterexample :
    join (dtFromRows [[("a", Value.int 1)]]).1 (dtFromRows [[("b", Value.int 2)]]).1
        (.dict []) "" true false
      = .ok ([[("a", Value.int 1), ("b", Value.int 2)]],
        ⟨["a", "b"], [[("a", Value.int 1), ("b", Value.int 2)]]⟩) := by
  rfl

/-- C8 amended: `join` raises only when the join field map is not a
mapping; an empty dict is accepted and the join succeeds (bucketing by the
empty field tuple). -/
theorem claim_C8_join_spec_amended (self other : DataTable) (pfx : String)
    (lj rj : Bool) (hnd : other.headersRaw.Nodup) :
    join self other .nonDict pfx lj rj = .error .typeErr ∧
    (join self other (.dict []) pfx lj rj).isOk = true := by
  refine ⟨rfl, ?_⟩
  have h := joinDict_eval self other [] pfx lj rj hnd (by simp) (by simp)
    (fun orow _ f hf => absurd hf (by simp)) (fun row _ f hf => absurd hf (by simp))
  show (joinDict self other [] pfx lj rj).isOk = true
  rw [h]
  rfl

/-- C8 amended witness. -/
theorem claim_C8_join_spec_amended_witness :
    join (dtFromRows [[("a", Value.int 1)]]).1 (dtFromRows [[("b", Value.int 2)]]).1
        .nonDict "" true false = .error .typeErr ∧
    (join (dtFromRows [[("a", Value.int 1)]]).1 (dtFromRows [[("b", Value.int 2)]]).1
        (.dict []) "" true false).isOk = true :=
  claim_C8_join_spec_amended (dtFromRows [[("a", Value.int 1)]]).1
    (dtFromRows [[("b", Value.int 2)]]).1 "" true false (by decide)

/-! ### Helper lemmas: column addition and augment -/

theorem lookup_map_replace_self {r : Row} {h : String} {v : Value} (hm : h ∈ rowKeys r) :
    (r.map (fun p => if p.1 = h then (h, v) else p)).lookup h = some v := by
  induction r with
  | nil => simp [rowKeys] at hm
  | cons p rest ih =>
    rcases p with ⟨k, w⟩
    by_cases hk : k = h
    · subst hk
      rw [List.map_cons, if_pos (rfl : (k, w).1 = k)]
      simp [List.lookup_cons]
    · have hb : (h == k) = false := beq_eq_false_iff_ne.mpr (fun he => hk he.symm)
      have hm2 : h ∈ rowKeys rest := by
        rw [rowKeys_cons, List.mem_cons] at hm
        exact hm.resolve_left (fun he => hk he.symm)
      show List.lookup h ((if (k, w).1 = h then (h, v) else (k, w)) :: _) = some v
      rw [if_neg hk]
      simp only [List.lookup_cons, hb]
      exact ih hm2

theorem lookup_map_replace_other {r : Row} {h h' : String} {v : Value} (hne : h' ≠ h) :
    (r.map (fun p => if p.1 = h' then (h', v) else p)).lookup h = r.lookup h := by
  induction r with
  | nil => rfl
  | cons p rest ih =>
    rcases p with ⟨k, w⟩
    by_cases hk : k = h'
    · subst hk
      rw [List.map_cons, if_pos (rfl : (k, w).1 = k)]
      have hb : (h == k) = false := beq_eq_false_iff_ne.mpr (fun he => hne he.symm)
      simp only [List.lookup_cons, hb]
      exact ih
    · show List.lookup h ((if (k, w).1 = h' then (h', v) else (k, w)) :: _) = _
      rw [if_neg hk]
      simp only [List.lookup_cons]
      cases hbk : (h == k) with
      | true => rfl
      | false => exact ih

theorem rowSet_lookup_self (r : Row) (h : String) (v : Value) :
    (rowSet r h v).lookup h = some v := by
  rw [rowSet]
  by_cases hc : (rowKeys r).contains h = true
  · rw [if_pos hc]
    exact lookup_map_replace_self ((contains_iff _ _).mp hc)
  · rw [if_neg hc]
    have hm : h ∉ rowKeys r := fun hmm => hc ((contains_iff _ _).mpr hmm)
    rw [lookup_append_right hm]
    simp [List.lookup_cons]

theorem rowSet_lookup_other {r : Row} {h h' : String} (v : Value) (hne : h' ≠ h) :
    (rowSet r h' v).lookup h = r.lookup h := by
  rw [rowSet]
  by_cases hc : (rowKeys r).contains h' = true
  · rw [if_pos hc]
    exact lookup_map_replace_other hne
  · rw [if_neg hc]
    by_cases hm : h ∈ rowKeys r
    · rw [lookup_append_left hm]
    · rw [lookup_append_right hm]
      have hr : r.lookup h = none := by
        cases hl : r.lookup h with
        | none => rfl
        | some w =>
          exact absurd (lookup_isSome_iff_mem.mp (by rw [hl]; rfl)) hm
      have hb : (h == h') = false := beq_eq_false_iff_ne.mpr (fun he => hne he.symm)
      rw [hr]
      simp [List.lookup_cons, hb]

theorem fold_rowSet_preserve {cols : List (String × Value)} {r : Row} {h : String}
    (hk : ∀ k ∈ cols.map Prod.fst, k ≠ h) :
    (cols.foldl (fun r hv => rowSet r hv.1 hv.2) r).lookup h = r.lookup h := by
  induction cols generalizing r with
  | nil => rfl
  | cons c rest ih =>
    rw [List.foldl_cons]
    rw [ih (fun k hkk => hk k (by rw [List.map_cons]; exact List.mem_cons_of_mem _ hkk))]
    exact rowSet_lookup_other c.2 (hk c.1 (by rw [List.map_cons]; exact List.mem_cons_self _ _))

theorem fold_rowSet_lookup {cols : List (String × Value)} {r : Row} {h : String} {v : Value}
    (hnd : (cols.map Prod.fst).Nodup) (hm : (h, v) ∈ cols) :
    (cols.foldl (fun r hv => rowSet r hv.1 hv.2) r).lookup h = some v := by
  induction cols generalizing r with
  | nil => simp at hm
  | cons c rest ih =>
    rw [List.foldl_cons]
    rcases List.mem_cons.mp hm with he | hrest
    · subst he
      rw [fold_rowSet_preserve ?hpres]
      · exact rowSet_lookup_self r h v
      case hpres =>
        intro k hkk he
        subst he
        rw [List.map_cons] at hnd
        exact (List.nodup_cons.mp hnd).1 hkk
    · exact ih (List.nodup_cons.mp (by rw [List.map_cons] at hnd; exact hnd)).2 hrest

theorem andCols_headersRaw {t : DataTable} {cols : List (String × Value)}
    (hnd : (cols.map Prod.fst).Nodup)
    (hnew : ∀ k ∈ cols.map Prod.fst, k ∉ t.headersRaw) :
    (andCols t cols).headersRaw = t.headersRaw ++ cols.map Prod.fst := by
  induction cols generalizing t with
  | nil => simp [andCols]
  | cons c rest ih =>
    rw [andCols, List.foldl_cons]
    have hc : ¬ (t.headersRaw.contains c.1 = true) := by
      intro hcc
      exact hnew c.1 (by simp) ((contains_iff _ _).mp hcc)
    have step : (⟨if t.headersRaw.contains c.1 then t.headersRaw else t.headersRaw ++ [c.1],
        t.rows.map (fun r => rowSet r c.1 c.2)⟩ : DataTable)
        = ⟨t.headersRaw ++ [c.1], t.rows.map (fun r => rowSet r c.1 c.2)⟩ := by
      rw [if_neg hc]
    rw [step]
    have ihr := ih (t := ⟨t.headersRaw ++ [c.1], t.rows.map (fun r => rowSet r c.1 c.2)⟩)
      (List.nodup_cons.mp (by rw [List.map_cons] at hnd; exact hnd)).2 ?hnew2
    case hnew2 =>
      intro k hkk hkm
      rcases List.mem_append.mp hkm with hkm | hkm
      · exact hnew k (by simp [hkk]) hkm
      · rw [List.map_cons] at hnd
        rcases List.mem_singleton.mp hkm with rfl
        exact (List.nodup_cons.mp hnd).1 hkk
    rw [show andCols ⟨t.headersRaw ++ [c.1], t.rows.map (fun r => rowSet r c.1 c.2)⟩ rest
        = rest.foldl (fun acc hv =>
            ⟨if acc.headersRaw.contains hv.1 then acc.headersRaw else acc.headersRaw ++ [hv.1],
             acc.rows.map (fun r => rowSet r hv.1 hv.2)⟩)
          ⟨t.headersRaw ++ [c.1], t.rows.map (fun r => rowSet r c.1 c.2)⟩ from rfl] at ihr
    rw [ihr, List.map_cons, List.append_assoc]
    rfl

theorem andCols_rows {t : DataTable} (cols : List (String × Value)) :
    (andCols t cols).rows
      = t.rows.map (fun r => cols.foldl (fun r hv => rowSet r hv.1 hv.2) r) := by
  induction cols generalizing t with
  | nil => simp [andCols]
  | cons c rest ih =>
    rw [andCols, List.foldl_cons]
    have ihr := ih (t := ⟨if t.headersRaw.contains c.1 then t.headersRaw
        else t.headersRaw ++ [c.1], t.rows.map (fun r => rowSet r c.1 c.2)⟩)
    rw [show (rest.foldl (fun acc hv =>
        ⟨if acc.headersRaw.contains hv.1 then acc.headersRaw else acc.headersRaw ++ [hv.1],
         acc.rows.map (fun r => rowSet r hv.1 hv.2)⟩)
        ⟨if t.headersRaw.contains c.1 then t.headersRaw else t.headersRaw ++ [c.1],
         t.rows.map (fun r => rowSet r c.1 c.2)⟩)
      = andCols ⟨if t.headersRaw.contains c.1 then t.headersRaw
          else t.headersRaw ++ [c.1], t.rows.map (fun r => rowSet r c.1 c.2)⟩ rest from rfl]
    rw [ihr]
    rw [List.map_map]
    rfl

theorem mem_padHeaders {t1 t2 : DataTable} {a : String} :
    (a ∈ t2.headers.filter (fun h => ¬ t1.headers.contains h))
      ↔ (a ∈ t2.headersRaw ∧ a ∉ t1.headersRaw) := by
  rw [List.mem_filter]
  constructor
  · rintro ⟨hm, hp⟩
    simp only [decide_eq_true_eq] at hp
    exact ⟨pySorted_mem.mp hm, fun hmm =>
      hp ((contains_iff _ _).mpr (pySorted_mem.mpr hmm))⟩
  · rintro ⟨hm, hn⟩
    refine ⟨pySorted_mem.mpr hm, ?_⟩
    simp only [decide_eq_true_eq]
    intro hc
    exact hn (pySorted_mem.mp ((contains_iff _ _).mp hc))

/-- C5 counterexample: augmenting `[{a:1}]` with `[{b:2}]` pads the gaps
with the *empty string* `''`, not with Null — the placeholder dict is
`dict((h,'') ...)`. -/
theorem claim_C5_augment_counterexample :
    augment (dtFromRows [[("a", Value.int 1)]]).1 (dtFromRows [[("b", Value.int 2)]]).1
      = .ok ⟨["a", "b"], [[("a", Value.int 1), ("b", Value.str "")],
          [("b", Value.int 2), ("a", Value.str "")]]⟩ ∧
    Value.str "" ≠ Value.null := by
  exact ⟨rfl, by decide⟩

/-- C5 amended: `augment` never raises; a side with zero rows short-circuits
(returning the other operand, dropping its headers); when both sides have
rows, each side gains its missing headers valued `''` (the empty string,
not Null) and the result's header set is the union of the two header
sets. -/
theorem claim_C5_augment_amended (t1 t2 : DataTable)
    (h1 : t1.headersRaw.Nodup) (h2 : t2.headersRaw.Nodup) :
    (∃ r, augment t1 t2 = .ok r) ∧
    (t2.rows = [] → augment t1 t2 = .ok t1) ∧
    (t1.rows = [] → t2.rows ≠ [] → augment t1 t2 = .ok t2) ∧
    (t1.rows ≠ [] → t2.rows ≠ [] →
      ∃ r, augment t1 t2 = .ok r ∧
        (∀ h, h ∈ r.headers ↔ (h ∈ t1.headersRaw ∨ h ∈ t2.headersRaw)) ∧
        r.rows.length = t1.rows.length + t2.rows.length ∧
        (∀ row ∈ r.rows.take t1.rows.length, ∀ hdr, hdr ∈ t2.headers → hdr ∉ t1.headers →
          row.lookup hdr = some (Value.str "")) ∧
        (∀ row ∈ r.rows.drop t1.rows.length, ∀ hdr, hdr ∈ t1.headers → hdr ∉ t2.headers →
          row.lookup hdr = some (Value.str ""))) := by
  have hmain : t1.rows ≠ [] → t2.rows ≠ [] →
      ∃ r, augment t1 t2 = .ok r ∧
        (∀ h, h ∈ r.headers ↔ (h ∈ t1.headersRaw ∨ h ∈ t2.headersRaw)) ∧
        r.rows.length = t1.rows.length + t2.rows.length ∧
        (∀ row ∈ r.rows.take t1.rows.length, ∀ hdr, hdr ∈ t2.headers → hdr ∉ t1.headers →
          row.lookup hdr = some (Value.str "")) ∧
        (∀ row ∈ r.rows.drop t1.rows.length, ∀ hdr, hdr ∈ t1.headers → hdr ∉ t2.headers →
          row.lookup hdr = some (Value.str "")) := by
    intro hr1 hr2
    have hl2 : ¬ (t2.rows.length = 0) := fun h0 => hr2 (List.length_eq_zero.mp h0)
    have hl1 : ¬ (t1.rows.length = 0) := fun h0 => hr1 (List.length_eq_zero.mp h0)
    set L1 := t2.headers.filter (fun h => ¬ t1.headers.contains h) with hL1
    set L2 := t1.headers.filter (fun h => ¬ t2.headers.contains h) with hL2
    have hL1nd : L1.Nodup := (pySorted_nodup h2).filter _
    have hL2nd : L2.Nodup := (pySorted_nodup h1).filter _
    have hkeys1 : (L1.map (fun h => (h, Value.str ""))).map Prod.fst = L1 := by
      rw [List.map_map]
      exact List.map_id _
    have hkeys2 : (L2.map (fun h => (h, Value.str ""))).map Prod.fst = L2 := by
      rw [List.map_map]
      exact List.map_id _
    have hnew1 : ∀ k ∈ (L1.map (fun h => (h, Value.str ""))).map Prod.fst,
        k ∉ t1.headersRaw := by
      rw [hkeys1]
      intro k hk
      exact (mem_padHeaders.mp hk).2
    have hnew2 : ∀ k ∈ (L2.map (fun h => (h, Value.str ""))).map Prod.fst,
        k ∉ t2.headersRaw := by
      rw [hkeys2]
      intro k hk
      exact (mem_padHeaders.mp hk).2
    have hh1 : (andCols t1 (L1.map (fun h => (h, Value.str "")))).headersRaw
        = t1.headersRaw ++ L1 := by
      rw [andCols_headersRaw (by rw [hkeys1]; exact hL1nd) hnew1, hkeys1]
    have hh2 : (andCols t2 (L2.map (fun h => (h, Value.str "")))).headersRaw
        = t2.headersRaw ++ L2 := by
      rw [andCols_headersRaw (by rw [hkeys2]; exact hL2nd) hnew2, hkeys2]
    have hnd1 : (t1.headersRaw ++ L1).Nodup := by
      apply List.Nodup.append h1 hL1nd
      intro a ha hb
      exact (mem_padHeaders.mp hb).2 ha
    have hnd2 : (t2.headersRaw ++ L2).Nodup := by
      apply List.Nodup.append h2 hL2nd
      intro a ha hb
      exact (mem_padHeaders.mp hb).2 ha
    have hmem : ∀ a, a ∈ t1.headersRaw ++ L1 ↔ (a ∈ t1.headersRaw ∨ a ∈ t2.headersRaw) := by
      intro a
      rw [List.mem_append, mem_padHeaders]
      constructor
      · rintro (ha | ⟨ha, _⟩)
        · exact Or.inl ha
        · exact Or.inr ha
      · rintro (ha | ha)
        · exact Or.inl ha
        · by_cases hb : a ∈ t1.headersRaw
          · exact Or.inl hb
          · exact Or.inr ⟨ha, hb⟩
    have hmem2 : ∀ a, a ∈ t2.headersRaw ++ L2 ↔ (a ∈ t1.headersRaw ∨ a ∈ t2.headersRaw) := by
      intro a
      rw [List.mem_append, mem_padHeaders]
      constructor
      · rintro (ha | ⟨ha, _⟩)
        · exact Or.inr ha
        · exact Or.inl ha
      · rintro (ha | ha)
        · by_cases hb : a ∈ t2.headersRaw
          · exact Or.inl hb
          · exact Or.inr ⟨ha, hb⟩
        · exact Or.inl ha
    have hperm : (t1.headersRaw ++ L1).Perm (t2.headersRaw ++ L2) := by
      apply (List.perm_ext_iff_of_nodup hnd1 hnd2).mpr
      intro a
      rw [hmem a, hmem2 a]
    have hsorted : (andCols t1 (L1.map (fun h => (h, Value.str "")))).headers
        = (andCols t2 (L2.map (fun h => (h, Value.str "")))).headers := by
      rw [DataTable.headers, DataTable.headers, hh1, hh2]
      exact pySorted_eq_of_perm hperm
    refine ⟨⟨(andCols t1 (L1.map (fun h => (h, Value.str "")))).headersRaw,
      (andCols t1 (L1.map (fun h => (h, Value.str "")))).rows
        ++ (andCols t2 (L2.map (fun h => (h, Value.str "")))).rows⟩, ?_, ?_, ?_, ?_, ?_⟩
    · rw [augment, if_neg hl2, if_neg hl1, iaddDT, if_neg ?cnd]
      case cnd =>
        rintro ⟨_, _, hne⟩
        exact hne hsorted
    · intro h
      rw [DataTable.headers, hh1]
      rw [pySorted_mem]
      exact hmem h
    · rw [List.length_append, andCols_rows, andCols_rows, List.length_map, List.length_map]
    · intro row hrow hdr hm2 hm1
      rw [andCols_rows, andCols_rows] at hrow
      rw [List.take_left' (by rw [List.length_map])] at hrow
      rcases List.mem_map.mp hrow with ⟨orig, _, rfl⟩
      apply fold_rowSet_lookup (by rw [hkeys1]; exact hL1nd)
      apply List.mem_map.mpr
      refine ⟨hdr, ?_, rfl⟩
      rw [hL1, List.mem_filter]
      refine ⟨hm2, ?_⟩
      simp only [decide_eq_true_eq]
      intro hc
      exact hm1 ((contains_iff _ _).mp hc)
    · intro row hrow hdr hm1 hm2
      rw [andCols_rows, andCols_rows] at hrow
      rw [List.drop_left' (by rw [List.length_map])] at hrow
      rcases List.mem_map.mp hrow with ⟨orig, _, rfl⟩
      apply fold_rowSet_lookup (by rw [hkeys2]; exact hL2nd)
      apply List.mem_map.mpr
      refine ⟨hdr, ?_, rfl⟩
      rw [hL2, List.mem_filter]
      refine ⟨hm1, ?_⟩
      simp only [decide_eq_true_eq]
      intro hc
      exact hm2 ((contains_iff _ _).mp hc)
  refine ⟨?_, ?_, ?_, hmain⟩
  · by_cases hr2 : t2.rows = []
    · exact ⟨t1, by rw [augment, if_pos (by rw [hr2]; rfl)]⟩
    · by_cases hr1 : t1.rows = []
      · refine ⟨t2, ?_⟩
        rw [augment, if_neg (fun h0 => hr2 (List.length_eq_zero.mp h0)),
          if_pos (by rw [hr1]; rfl)]
      · rcases hmain hr1 hr2 with ⟨r, hr, _⟩
        exact ⟨r, hr⟩
  · intro hr2
    rw [augment, if_pos (by rw [hr2]; rfl)]
  · intro hr1 hr2
    rw [augment, if_neg (fun h0 => hr2 (List.length_eq_zero.mp h0)),
      if_pos (by rw [hr1]; rfl)]

/-- C5 amended witness. -/
theorem claim_C5_augment_amended_witness :
    augment (dtFromRows [[("a", Value.int 1)]]).1 (dtFromRows [[("b", Value.int 2)]]).1
        = .ok ⟨["a", "b"], [[("a", Value.int 1), ("b", Value.str "")],
            [("b", Value.int 2), ("a", Value.str "")]]⟩ ∧
    (∀ h, h ∈ (⟨["a", "b"], [[("a", Value.int 1), ("b", Value.str "")],
        [("b", Value.int 2), ("a", Value.str "")]]⟩ : DataTable).headers ↔
      (h ∈ (dtFromRows [[("a", Value.int 1)]]).1.headersRaw ∨
       h ∈ (dtFromRows [[("b", Value.int 2)]]).1.headersRaw)) := by
  have h := claim_C5_augment_amended (dtFromRows [[("a", Value.int 1)]]).1
    (dtFromRows [[("b", Value.int 2)]]).1 (by decide) (by decide)
  rcases h.2.2.2 (by decide) (by decide) with ⟨r, hok, hhdr, _⟩
  have hre : r = ⟨["a", "b"], [[("a", Value.int 1), ("b", Value.str "")],
      [("b", Value.int 2), ("a", Value.str "")]]⟩ := by
    have : Except.ok (ε := PyErr) r = .ok (⟨["a", "b"],
        [[("a", Value.int 1), ("b", Value.str "")],
          [("b", Value.int 2), ("a", Value.str "")]]⟩ : DataTable) := by
      rw [← hok]
      rfl
    exact (Except.ok.injEq _ _).mp this
  subst hre
  exact ⟨hok, hhdr⟩

/-! ### Helper lemmas: ResultSet suppression -/

theorem not_truthy_iff {r : Result} :
    r.truthy = false ↔
      (r.data = [] ∧ ∃ lf lt, r.fromRow = some lf ∧ r.toRow = some lt ∧
        lf.length = lt.length) := by
  rw [Result.truthy]
  cases hf : r.fromRow with
  | none => simp [hf]
  | some lf =>
    cases ht : r.toRow with
    | none => simp [hf, ht]
    | some lt =>
      cases hd : r.data with
      | nil =>
        simp only [hf, ht, hd, List.isEmpty_nil, Bool.not_true, Option.isNone_some,
          Bool.false_or, Option.getD_some, Bool.or_eq_false_iff, Bool.not_eq_false,
          beq_iff_eq, List.nil_eq, true_and]
        constructor
        · intro h
          refine ⟨lf, lt, rfl, rfl, ?_⟩
          simpa using h
        · rintro ⟨lf', lt', he1, he2, he3⟩
          cases he1
          cases he2
          simpa using he3
      | cons d ds => simp [hf, ht, hd]

theorem isPair_not_truthy {r : Result} (hp : isPairR r) (hd : r.data = []) :
    r.truthy = false := by
  rcases hp with ⟨⟨x, hx⟩, ⟨y, hy⟩⟩
  exact not_truthy_iff.mpr ⟨hd, [x], [y], hx, hy, rfl⟩

theorem dataEq_nil {d : List (Nat × (Value × Value))} (h : dataEq d [] = true) :
    d = [] := by
  rw [dataEq] at h
  rcases Bool.and_eq_true_iff.mp h with ⟨hl, _⟩
  exact List.length_eq_zero.mp (by simpa using hl)

theorem resultEq_refl_of_nil {r : Result} (hd : r.data = []) :
    resultEq r r = true := by
  rw [resultEq, dataEq, hd]
  simp

theorem resultEq_facts {a b : Result} (h : resultEq a b = true) :
    a.key = b.key ∧ (b.data = [] → a.data = []) := by
  rw [resultEq] at h
  rcases Bool.and_eq_true_iff.mp h with ⟨hk, hdq⟩
  refine ⟨of_decide_eq_true hk, ?_⟩
  intro hb
  rw [hb] at hdq
  exact dataEq_nil hdq

theorem alookupN_mem {id : Nat} {s : RSState} {r : Result}
    (h : alookupN id s = some r) : (id, r) ∈ s := by
  induction s with
  | nil => exact absurd h (by simp [alookupN])
  | cons p rest ih =>
    rcases p with ⟨pid, pr⟩
    rw [alookupN] at h
    by_cases hp : pid = id
    · rw [if_pos hp] at h
      injection h with h2
      subst h2
      subst hp
      exact List.mem_cons_self _ _
    · rw [if_neg hp] at h
      exact List.mem_cons_of_mem _ (ih h)

theorem update_ids (s : RSState) (id : Nat) (r' : Result) :
    (s.map (fun p => if p.1 = id then (id, r') else p)).map Prod.fst
      = s.map Prod.fst := by
  rw [List.map_map]
  apply List.map_congr_left
  intro q _
  by_cases h : q.1 = id <;> simp [h]

theorem mem_update {s : RSState} {id : Nat} {r' : Result} {p : Nat × Result}
    (hp : p ∈ s.map (fun q => if q.1 = id then (id, r') else q)) :
    (p ∈ s ∧ p.1 ≠ id) ∨ p = (id, r') := by
  rcases List.mem_map.mp hp with ⟨q, hq, he⟩
  by_cases h : q.1 = id
  · rw [if_pos h] at he
    exact Or.inr he.symm
  · rw [if_neg h] at he
    subst he
    exact Or.inl ⟨hq, h⟩

theorem mem_update_self {s : RSState} {id : Nat} {r : Result} (r' : Result)
    (h : (id, r) ∈ s) :
    (id, r') ∈ s.map (fun q => if q.1 = id then (id, r') else q) := by
  apply List.mem_map.mpr
  exact ⟨(id, r), h, by simp⟩

theorem mem_update_id {s : RSState} {id : Nat} {r' : Result} {p : Nat × Result}
    (hp : p ∈ s.map (fun q => if q.1 = id then (id, r') else q)) (hid : p.1 = id) :
    p = (id, r') := by
  rcases mem_update hp with ⟨_, hne⟩ | he
  · exact absurd hid hne
  · exact he

theorem removeFirstEq_sublist (r' : Result) (l : RSState) :
    (removeFirstEq r' l).Sublist l := by
  induction l with
  | nil => exact List.Sublist.refl _
  | cons p rest ih =>
    rw [removeFirstEq]
    by_cases h : resultEq p.2 r' = true
    · rw [if_pos h]
      exact List.sublist_cons_of_sublist p (List.Sublist.refl rest)
    · rw [if_neg h]
      exact List.Sublist.cons₂ p ih

theorem removeFirstEq_ne {r' : Result} {l : RSState} {e : Nat × Result}
    (he : e ∈ l) (hu : ∀ p ∈ l, resultEq p.2 r' = true → p = e)
    (hnd : (l.map Prod.fst).Nodup) (hre : resultEq e.2 r' = true) :
    ∀ q ∈ removeFirstEq r' l, q ≠ e := by
  induction l with
  | nil =>
    intro q hq
    exact absurd hq (by rw [show removeFirstEq r' [] = [] from rfl]; simp)
  | cons p rest ih =>
    rw [removeFirstEq]
    rw [List.map_cons, List.nodup_cons] at hnd
    by_cases h : resultEq p.2 r' = true
    · rw [if_pos h]
      have hpe : p = e := hu p (List.mem_cons_self _ _) h
      subst hpe
      intro q hq he2
      subst he2
      exact hnd.1 (List.mem_map.mpr ⟨q, hq, rfl⟩)
    · rw [if_neg h]
      have hpe : p ≠ e := by
        intro he2
        subst he2
        exact h hre
      have herest : e ∈ rest := (List.mem_cons.mp he).resolve_left
        (fun he2 => hpe he2.symm)
      intro q hq
      rcases List.mem_cons.mp hq with rfl | hq2
      · exact hpe
      · exact ih herest (fun a ha har => hu a (List.mem_cons_of_mem _ ha) har)
          hnd.2 q hq2

theorem shape_ignoreFld (field : String) :
    ShapePreserving (fun r => r.ignoreFld field) := by
  intro r
  dsimp only
  unfold Result.ignoreFld
  refine ⟨?_, ?_, ?_⟩ <;> (repeat' (first | rfl | split | dsimp only))

theorem shape_checkRemove (field : String) (g : Value → Value → Bool) :
    ShapePreserving (fun r => r.checkRemove field g) := by
  intro r
  dsimp only
  unfold Result.checkRemove
  refine ⟨?_, ?_, ?_⟩ <;> (repeat' (first | rfl | split | dsimp only))

theorem shape_checkRemoveMulti (g : Row → Row → Bool) (fields : List String) :
    ShapePreserving (fun r => r.checkRemoveMulti g fields) := by
  intro r
  dsimp only
  unfold Result.checkRemoveMulti
  refine ⟨?_, ?_, ?_⟩ <;> (repeat' (first | rfl | split | dsimp only))

theorem shape_customCheck (keyFields : List String) (g : Row → Row → Bool)
    (fields : List String) :
    ShapePreserving (fun r => r.customCheck keyFields g fields) := by
  intro r
  dsimp only
  unfold Result.customCheck
  refine ⟨?_, ?_, ?_⟩ <;> (repeat' (first | rfl | split | dsimp only))

theorem suppressStep_good {f : Result → Result} (hf : ShapePreserving f) {s : RSState}
    (hs : GoodState s) (id : Nat) : GoodState (suppressStep f s id) := by
  rcases hs with ⟨hnd, hat, hpk⟩
  rw [suppressStep]
  cases halo : alookupN id s with
  | none => exact ⟨hnd, hat, hpk⟩
  | some r =>
    dsimp only
    have hmemr : (id, r) ∈ s := alookupN_mem halo
    have hnds' : idsNodup (s.map (fun p => if p.1 = id then (id, f r) else p)) := by
      rw [idsNodup, update_ids]
      exact hnd
    have horig : ∀ p ∈ s.map (fun q => if q.1 = id then (id, f r) else q),
        ∃ p0, p0 ∈ s ∧ p0.1 = p.1 ∧ p0.2.key = p.2.key ∧
          (isPairR p0.2 → isPairR p.2) := by
      intro p hp
      rcases mem_update hp with ⟨hm, _⟩ | rfl
      · exact ⟨p, hm, rfl, rfl, fun h => h⟩
      · refine ⟨(id, r), hmemr, rfl, ((hf r).1).symm, ?_⟩
        rintro ⟨⟨x, hx⟩, y, hy⟩
        exact ⟨⟨x, by rw [(hf r).2.1, hx]⟩, ⟨y, by rw [(hf r).2.2, hy]⟩⟩
    have hpks' : pairKeyInv (s.map (fun q => if q.1 = id then (id, f r) else q)) := by
      intro p hp q hq hne hkey
      rcases horig p hp with ⟨p0, hp0, hid0, hkey0, hpair0⟩
      rcases horig q hq with ⟨q0, hq0, hid0q, hkey0q, _⟩
      apply hpair0
      apply hpk p0 hp0 q0 hq0
      · rw [hid0, hid0q]
        exact hne
      · rw [hkey0, hkey0q]
        exact hkey
    by_cases htr : (f r).truthy = true
    · rw [if_pos htr]
      refine ⟨hnds', ?_, hpks'⟩
      intro p hp
      rcases mem_update hp with ⟨hmem, _⟩ | rfl
      · exact hat p hmem
      · exact htr
    · rw [if_neg htr]
      have hft : (f r).truthy = false := by
        cases h : (f r).truthy
        · rfl
        · exact absurd h htr
      rcases not_truthy_iff.mp hft with ⟨hdata, lf, lt, hfr, htr2, hlen⟩
      have hre : resultEq (f r) (f r) = true := resultEq_refl_of_nil hdata
      have he' : (id, f r) ∈ s.map (fun q => if q.1 = id then (id, f r) else q) :=
        mem_update_self (f r) hmemr
      have huniq : ∀ p ∈ s.map (fun q => if q.1 = id then (id, f r) else q),
          resultEq p.2 (f r) = true → p = (id, f r) := by
        intro p hp heq
        by_cases hid : p.1 = id
        · exact mem_update_id hp hid
        · exfalso
          rcases resultEq_facts heq with ⟨hkeq, hdeq⟩
          have hdp : p.2.data = [] := hdeq hdata
          rcases mem_update hp with ⟨hmem, _⟩ | he2
          · have htru := hat p hmem
            have hpair : isPairR p.2 := hpks' p hp (id, f r) he' hid (by rw [hkeq])
            rw [isPair_not_truthy hpair hdp] at htru
            exact absurd htru (by simp)
          · exact hid (by rw [he2])
      have hsub := removeFirstEq_sublist (f r)
        (s.map (fun q => if q.1 = id then (id, f r) else q))
      refine ⟨?_, ?_, ?_⟩
      · rw [idsNodup]
        exact (hsub.map Prod.fst).nodup hnds'
      · intro p hp
        have hnee := removeFirstEq_ne he' huniq hnds' hre p hp
        rcases mem_update (hsub.subset hp) with ⟨hmem2, _⟩ | he2
        · exact hat p hmem2
        · exact absurd he2 hnee
      · intro p hp q hq hne2 hkey
        exact hpks' p (hsub.subset hp) q (hsub.subset hq) hne2 hkey

theorem suppressLoop_good {f : Result → Result} (hf : ShapePreserving f) :
    ∀ (ids : List Nat) (s : RSState), GoodState s →
      GoodState (ids.foldl (suppressStep f) s) := by
  intro ids
  induction ids with
  | nil => exact fun s hs => hs
  | cons i rest ih =>
    intro s hs
    rw [List.foldl_cons]
    exact ih _ (suppressStep_good hf hs i)

theorem suppressLoop_goodState {f : Result → Result} (hf : ShapePreserving f)
    {s : RSState} (hs : GoodState s) : GoodState (suppressLoop f s) := by
  rw [suppressLoop]
  exact suppressLoop_good hf _ s hs

theorem le_foldl_max (l : List Nat) (a : Nat) :
    a ≤ l.foldl max a ∧ ∀ x ∈ l, x ≤ l.foldl max a := by
  induction l generalizing a with
  | nil => exact ⟨Nat.le_refl a, by simp⟩
  | cons y ys ih =>
    rw [List.foldl_cons]
    rcases ih (max a y) with ⟨h1, h2⟩
    refine ⟨Nat.le_trans (Nat.le_max_left a y) h1, ?_⟩
    intro x hx
    rcases List.mem_cons.mp hx with rfl | hx2
    · exact Nat.le_trans (Nat.le_max_right a x) h1
    · exact h2 x hx2

theorem freshId_not_mem (s : RSState) : freshId s ∉ s.map Prod.fst := by
  intro hm
  have h := (le_foldl_max (s.map Prod.fst) 0).2 _ hm
  rw [freshId] at h
  omega

theorem iaddRS_mem {s : RSState} {r : Result} {p : Nat × Result} (hp : p ∈ iaddRS s r) :
    p ∈ s ∨ (p = (freshId s, r) ∧ r.truthy = true) := by
  rw [iaddRS] at hp
  by_cases h : r.truthy = true
  · rw [if_pos h] at hp
    rcases List.mem_append.mp hp with h2 | h2
    · exact Or.inl h2
    · exact Or.inr ⟨List.mem_singleton.mp h2, h⟩
  · rw [if_neg h] at hp
    exact Or.inl hp

theorem iaddRS_idsNodup {s : RSState} {r : Result} (hnd : idsNodup s) :
    idsNodup (iaddRS s r) := by
  rw [iaddRS]
  by_cases h : r.truthy = true
  · rw [if_pos h, idsNodup, List.map_append]
    apply List.Nodup.append hnd (by simp)
    intro a ha hb
    have : a = freshId s := by simpa using hb
    subst this
    exact freshId_not_mem s ha
  · rw [if_neg h]
    exact hnd

/-- `ResultSet.__iadd__` preserves all-significant states, since it appends
the result only when it is truthy. -/
theorem iaddRS_truthy {s : RSState} {r : Result} (hat : allTruthy s) :
    allTruthy (iaddRS s r) := by
  intro p hp
  rcases iaddRS_mem hp with h | ⟨he, ht⟩
  · exact hat p h
  · rw [he]
    exact ht

theorem fold_iaddRS_facts (rs : List Result) (s : RSState) (hnd : idsNodup s)
    (hat : allTruthy s) :
    idsNodup (rs.foldl iaddRS s) ∧ allTruthy (rs.foldl iaddRS s) ∧
      ∀ p ∈ rs.foldl iaddRS s, p ∈ s ∨ p.2 ∈ rs := by
  induction rs generalizing s with
  | nil => exact ⟨hnd, hat, fun p hp => Or.inl hp⟩
  | cons r rest ih =>
    rw [List.foldl_cons]
    rcases ih (iaddRS s r) (iaddRS_idsNodup hnd) (iaddRS_truthy hat) with ⟨h1, h2, h3⟩
    refine ⟨h1, h2, ?_⟩
    intro p hp
    rcases h3 p hp with hmem | hmem
    · rcases iaddRS_mem hmem with h4 | ⟨he, _⟩
      · exact Or.inl h4
      · rw [he]
        exact Or.inr (by simp)
    · exact Or.inr (List.mem_cons_of_mem _ hmem)

theorem diffKeyResults_shape (key : List Value) (df : List (String × Nat))
    (fb tb : List (List Value × List Tuple)) :
    (∀ r ∈ diffKeyResults key df fb tb, r.key = key) ∧
    ((∀ r ∈ diffKeyResults key df fb tb, isPairR r) ∨
      ∃ r0, diffKeyResults key df fb tb = [r0]) := by
  rw [diffKeyResults]
  cases hf : (alookup key fb).map sortBucket with
  | none =>
    dsimp only
    refine ⟨?_, Or.inr ⟨_, rfl⟩⟩
    intro r hr
    rw [List.mem_singleton.mp hr]
    rfl
  | some l1 =>
    cases ht : (alookup key tb).map sortBucket with
    | none =>
      dsimp only
      refine ⟨?_, Or.inr ⟨_, rfl⟩⟩
      intro r hr
      rw [List.mem_singleton.mp hr]
      rfl
    | some l2 =>
      dsimp only
      by_cases hc : l1 ≠ [] ∧ l2 ≠ [] ∧ l1.length = l2.length
      · rw [if_pos hc]
        constructor
        · intro r hr
          rcases List.mem_map.mp hr with ⟨ft, _, rfl⟩
          rfl
        · left
          intro r hr
          rcases List.mem_map.mp hr with ⟨ft, _, rfl⟩
          exact ⟨⟨ft.1, rfl⟩, ⟨ft.2, rfl⟩⟩
      · rw [if_neg hc]
        refine ⟨?_, Or.inr ⟨_, rfl⟩⟩
        intro r hr
        rw [List.mem_singleton.mp hr]
        rfl

theorem diff_fold_good (df : List (String × Nat)) (fb tb : List (List Value × List Tuple)) :
    ∀ (keys : List (List Value)) (K : List (List Value)) (s : RSState),
      keys.Nodup → (∀ k ∈ keys, k ∉ K) →
      idsNodup s → allTruthy s → (∀ p ∈ s, p.2.key ∈ K) → pairKeyInv s →
      idsNodup (keys.foldl (fun acc key => (diffKeyResults key df fb tb).foldl iaddRS acc) s) ∧
      allTruthy (keys.foldl (fun acc key => (diffKeyResults key df fb tb).foldl iaddRS acc) s) ∧
      (∀ p ∈ keys.foldl (fun acc key => (diffKeyResults key df fb tb).foldl iaddRS acc) s,
        p.2.key ∈ K ++ keys) ∧
      pairKeyInv (keys.foldl (fun acc key => (diffKeyResults key df fb tb).foldl iaddRS acc) s) := by
  intro keys
  induction keys with
  | nil =>
    intro K s _ _ h1 h2 h3 h4
    exact ⟨h1, h2, by simpa using h3, h4⟩
  | cons key rest ih =>
    intro K s hnd hdisj h1 h2 h3 h4
    rw [List.foldl_cons]
    rcases fold_iaddRS_facts (diffKeyResults key df fb tb) s h1 h2 with ⟨g1, g2, g3⟩
    have hshape := diffKeyResults_shape key df fb tb
    have hkey_not : key ∉ K := hdisj key (by simp)
    have hkeys1 : ∀ p ∈ (diffKeyResults key df fb tb).foldl iaddRS s,
        p.2.key ∈ K ++ [key] := by
      intro p hp
      rcases g3 p hp with hmem | hmem
      · exact List.mem_append.mpr (Or.inl (h3 p hmem))
      · exact List.mem_append.mpr (Or.inr (by rw [hshape.1 _ hmem]; simp))
    have hpk1 : pairKeyInv ((diffKeyResults key df fb tb).foldl iaddRS s) := by
      intro p hp q hq hne hkey
      rcases g3 p hp with hpm | hpm
      · rcases g3 q hq with hqm | hqm
        · exact h4 p hpm q hqm hne hkey
        · exfalso
          have hmemK := h3 p hpm
          rw [hkey, hshape.1 _ hqm] at hmemK
          exact hkey_not hmemK
      · rcases g3 q hq with hqm | hqm
        · exfalso
          have hmemK := h3 q hqm
          rw [← hkey, hshape.1 _ hpm] at hmemK
          exact hkey_not hmemK
        · rcases hshape.2 with hall | ⟨r0, hsingle⟩
          · exact hall _ hpm
          · exfalso
            rw [hsingle] at hp hq hpm hqm
            rw [show [r0].foldl iaddRS s = iaddRS s r0 from rfl] at hp hq
            have hpr0 : p.2 = r0 := by simpa using hpm
            have hqr0 : q.2 = r0 := by simpa using hqm
            have hr0key : r0.key = key := hshape.1 r0 (by rw [hsingle]; simp)
            rcases iaddRS_mem hp with hpo | ⟨hpe, _⟩
            · have := h3 p hpo
              rw [hpr0, hr0key] at this
              exact hkey_not this
            · rcases iaddRS_mem hq with hqo | ⟨hqe, _⟩
              · have := h3 q hqo
                rw [hqr0, hr0key] at this
                exact hkey_not this
              · apply hne
                rw [hpe, hqe]
    have hres := ih (K ++ [key]) ((diffKeyResults key df fb tb).foldl iaddRS s)
      (List.Nodup.of_cons hnd) ?disj g1 g2 hkeys1 hpk1
    case disj =>
      intro k hk
      rw [List.mem_append]
      rintro (hk2 | hk2)
      · exact hdisj k (List.mem_cons_of_mem _ hk) hk2
      · have : k = key := List.mem_singleton.mp hk2
        subst this
        exact (List.nodup_cons.mp hnd).1 hk
    rcases hres with ⟨a1, a2, a3, a4⟩
    refine ⟨a1, a2, ?_, a4⟩
    intro p hp
    have hm := a3 p hp
    rw [List.append_assoc] at hm
    simpa using hm

/-- `diff` builds a structurally good ResultSet: distinct identities, every
contained result significant, and same-key results pair-shaped. -/
theorem diff_goodState (fromT toT : DataTable) (buckets : List String) :
    GoodState (diff fromT toT buckets) := by
  unfold diff
  have h := diff_fold_good (diffFieldsOf fromT toT buckets)
    (diffBucket fromT (bucketHeadersFor fromT buckets) (diffHeadersList fromT toT buckets))
    (diffBucket toT (bucketHeadersFor toT buckets) (diffHeadersList fromT toT buckets))
    (allKeysOf
      (diffBucket fromT (bucketHeadersFor fromT buckets) (diffHeadersList fromT toT buckets))
      (diffBucket toT (bucketHeadersFor toT buckets) (diffHeadersList fromT toT buckets)))
    [] [] (List.nodup_dedup _) (by simp)
    (by rw [idsNodup]; simp) (fun p hp => absurd hp (by simp))
    (fun p hp => absurd hp (by simp)) (fun p hp => absurd hp (by simp))
  exact ⟨h.1, h.2.1, h.2.2.2⟩

/-- C6: every Result contained in a ResultSet is significant.  (a) `__iadd__`
adds only truthy Results, so diff-time insertion preserves the invariant,
and a full `diff` run yields a structurally good state; (b) after each of
the four suppression operations on a good state every remaining contained
Result is still truthy — a Result left with no changed fields and matching
row counts has been removed (and goodness is preserved, so suppressions
chain). -/
theorem claim_C6_resultset_significance :
    (∀ (s : RSState) (r : Result), allTruthy s → allTruthy (iaddRS s r)) ∧
    (∀ (fromT toT : DataTable) (buckets : List String),
      GoodState (diff fromT toT buckets)) ∧
    (∀ (s : RSState) (field : String), GoodState s →
      GoodState (rsIgnoreField s field) ∧ allTruthy (rsIgnoreField s field)) ∧
    (∀ (s : RSState) (field : String) (g : Value → Value → Bool), GoodState s →
      GoodState (rsCheckRemove s field g) ∧ allTruthy (rsCheckRemove s field g)) ∧
    (∀ (s : RSState) (g : Row → Row → Bool) (fields : List String), GoodState s →
      GoodState (rsCheckRemoveMulti s g fields) ∧ allTruthy (rsCheckRemoveMulti s g fields)) ∧
    (∀ (s : RSState) (keyFields : List String) (g : Row → Row → Bool)
        (fields : List String), GoodState s →
      GoodState (rsCustomCheck s keyFields g fields) ∧
        allTruthy (rsCustomCheck s keyFields g fields)) := by
  refine ⟨fun s r hat => iaddRS_truthy hat, diff_goodState, ?_, ?_, ?_, ?_⟩
  · intro s field hs
    have h := suppressLoop_goodState (shape_ignoreFld field) hs
    exact ⟨h, h.2.1⟩
  · intro s field g hs
    have h := suppressLoop_goodState (shape_checkRemove field g) hs
    exact ⟨h, h.2.1⟩
  · intro s g fields hs
    have h := suppressLoop_goodState (shape_checkRemoveMulti g fields) hs
    exact ⟨h, h.2.1⟩
  · intro s keyFields g fields hs
    have h := suppressLoop_goodState (shape_customCheck keyFields g fields) hs
    exact ⟨h, h.2.1⟩

/-- C6 witness: the spec's diff-determinism example — diffing
`[{k:1,f:"a"}]` against `[{k:1,f:"b"}]` on `k`, then `ignoreField("f")` —
leaves only truthy results (in fact none), and `__iadd__` into an empty
ResultSet keeps the invariant. -/
theorem claim_C6_resultset_significance_witness :
    allTruthy (rsIgnoreField
      (diff (dtFromRows [[("k", Value.int 1), ("f", Value.str "a")]]).1
        (dtFromRows [[("k", Value.int 1), ("f", Value.str "b")]]).1 ["k"]) "f") ∧
    allTruthy (iaddRS [] (mkResult [Value.int 1] [("f", 0)]
      (some [[Value.str "a"]]) (some [[Value.str "b"]]))) := by
  have h := claim_C6_resultset_significance
  refine ⟨(h.2.2.1 _ "f" (h.2.1 (dtFromRows [[("k", Value.int 1), ("f", Value.str "a")]]).1
      (dtFromRows [[("k", Value.int 1), ("f", Value.str "b")]]).1 ["k"])).2, ?_⟩
  exact h.1 [] _ (fun p hp => absurd hp (by simp))

theorem valueCmp_eq_iff : ∀ {a b : Value}, valueCmp a b = .eq ↔ a = b := by
  intro a b
  cases a with
  | null => cases b <;> simp [valueCmp]
  | int x =>
    cases b with
    | null => simp [valueCmp]
    | int y =>
      simp only [valueCmp, Value.int.injEq]
      exact compare_eq_iff_eq
    | str y => simp [valueCmp]
  | str x =>
    cases b with
    | null => simp [valueCmp]
    | int y => simp [valueCmp]
    | str y =>
      simp only [valueCmp, Value.str.injEq]
      by_cases he : x = y
      · simp [he]
      · rw [if_neg he]
        by_cases hl : strLe x y = true
        · rw [if_pos hl]
          simp [he]
        · rw [if_neg hl]
          simp [he]

theorem valueCmp_refl (a : Value) : valueCmp a a = .eq := valueCmp_eq_iff.mpr rfl

theorem valueCmp_swap (a b : Value) : valueCmp a b = (valueCmp b a).swap := by
  cases a with
  | null => cases b <;> rfl
  | int x =>
    cases b with
    | null => rfl
    | str y => rfl
    | int y =>
      simp only [valueCmp]
      rcases lt_trichotomy x y with h | h | h
      · rw [compare_lt_iff_lt.mpr h, compare_gt_iff_gt.mpr h]
        rfl
      · subst h
        rw [compare_eq_iff_eq.mpr rfl]
        rfl
      · rw [compare_gt_iff_gt.mpr h, compare_lt_iff_lt.mpr h]
        rfl
  | str x =>
    cases b with
    | null => rfl
    | int y => rfl
    | str y =>
      simp only [valueCmp]
      by_cases he : x = y
      · rw [if_pos he, if_pos (show y = x from he.symm)]
        rfl
      · rw [if_neg he, if_neg (show ¬ y = x from fun h => he h.symm)]
        by_cases hl : strLe x y = true
        · have hr : ¬ strLe y x = true := by
            intro hc
            exact he (strLe_antisymm hl hc)
          rw [if_pos hl, if_neg hr]
          rfl
        · have hr : strLe y x = true := by
            rcases Bool.or_eq_true_iff.mp (strLe_total x y) with h | h
            · exact absurd h hl
            · exact h
          rw [if_neg hl, if_pos hr]
          rfl

theorem valueCmp_lt_trans : ∀ {a b c : Value}, valueCmp a b = .lt → valueCmp b c = .lt →
    valueCmp a c = .lt := by
  intro a b c h1 h2
  cases a with
  | null =>
    cases c with
    | null => cases b <;> simp [valueCmp] at h2
    | int z => rfl
    | str z => rfl
  | int x =>
    cases b with
    | null => simp [valueCmp] at h1
    | int y =>
      cases c with
      | null => simp [valueCmp] at h2
      | int z =>
        simp only [valueCmp] at h1 h2 ⊢
        exact compare_lt_iff_lt.mpr
          (lt_trans (compare_lt_iff_lt.mp h1) (compare_lt_iff_lt.mp h2))
      | str z => rfl
    | str y =>
      cases c with
      | null => simp [valueCmp] at h2
      | int z => simp [valueCmp] at h2
      | str z => rfl
  | str x =>
    cases b with
    | null => simp [valueCmp] at h1
    | int y => simp [valueCmp] at h1
    | str y =>
      cases c with
      | null => simp [valueCmp] at h2
      | int z => simp [valueCmp] at h2
      | str z =>
        simp only [valueCmp] at h1 h2 ⊢
        by_cases he1 : x = y
        · subst he1
          exact h2
        · rw [if_neg he1] at h1
          by_cases hl1 : strLe x y = true
          · rw [if_pos hl1] at h1
            by_cases he2 : y = z
            · subst he2
              rw [if_neg he1, if_pos hl1]
            · rw [if_neg he2] at h2
              by_cases hl2 : strLe y z = true
              · have hxz : strLe x z = true := strLe_trans hl1 hl2
                have hne : ¬ x = z := by
                  rintro rfl
                  exact he1 (strLe_antisymm hl1 hl2)
                rw [if_neg hne, if_pos hxz]
              · rw [if_neg hl2] at h2
                exact absurd h2 (by simp)
          · rw [if_neg hl1] at h1
            exact absurd h1 (by simp)

theorem valueLe_null (v : Value) : valueLe Value.null v = true := by
  cases v <;> simp [valueLe, valueCmp]

theorem tupleCmp_eq_iff : ∀ {a b : Tuple}, tupleCmp a b = .eq ↔ a = b := by
  intro a b
  induction a generalizing b with
  | nil => cases b <;> simp [tupleCmp]
  | cons x xs ih =>
    cases b with
    | nil => simp [tupleCmp]
    | cons y ys =>
      rw [tupleCmp]
      cases ho : valueCmp x y with
      | eq =>
        have hxy : x = y := valueCmp_eq_iff.mp ho
        subst hxy
        simp [ih]
      | lt =>
        simp only [List.cons.injEq]
        constructor
        · intro h
          exact absurd h (by simp)
        · rintro ⟨rfl, rfl⟩
          rw [valueCmp_refl] at ho
          exact absurd ho (by simp)
      | gt =>
        simp only [List.cons.injEq]
        constructor
        · intro h
          exact absurd h (by simp)
        · rintro ⟨rfl, rfl⟩
          rw [valueCmp_refl] at ho
          exact absurd ho (by simp)

theorem tupleCmp_swap : ∀ (a b : Tuple), tupleCmp a b = (tupleCmp b a).swap := by
  intro a
  induction a with
  | nil => intro b; cases b <;> rfl
  | cons x xs ih =>
    intro b
    cases b with
    | nil => rfl
    | cons y ys =>
      rw [tupleCmp, tupleCmp, valueCmp_swap x y]
      cases valueCmp y x with
      | eq => exact ih ys
      | lt => rfl
      | gt => rfl

theorem tupleCmp_lt_trans : ∀ {a b c : Tuple}, tupleCmp a b = .lt → tupleCmp b c = .lt →
    tupleCmp a c = .lt := by
  intro a
  induction a with
  | nil =>
    intro b c h1 h2
    cases b with
    | nil => exact h2
    | cons y ys =>
      cases c with
      | nil => exact absurd h2 (by rw [tupleCmp]; simp)
      | cons z zs => rfl
  | cons x xs ih =>
    intro b c h1 h2
    cases b with
    | nil => exact absurd h1 (by rw [tupleCmp]; simp)
    | cons y ys =>
      cases c with
      | nil => exact absurd h2 (by rw [tupleCmp]; simp)
      | cons z zs =>
        rw [tupleCmp] at h1 h2 ⊢
        cases ho1 : valueCmp x y with
        | eq =>
          rw [ho1] at h1
          dsimp only at h1
          have hxy : x = y := valueCmp_eq_iff.mp ho1
          subst hxy
          revert h2
          cases valueCmp x z with
          | eq =>
            dsimp only
            exact fun h2 => ih h1 h2
          | lt =>
            dsimp only
            exact fun _ => rfl
          | gt =>
            dsimp only
            exact fun h2 => absurd h2 (by decide)
        | lt =>
          cases ho2 : valueCmp y z with
          | eq =>
            have hyz : y = z := valueCmp_eq_iff.mp ho2
            subst hyz
            rw [ho1]
          | lt => rw [valueCmp_lt_trans ho1 ho2]
          | gt =>
            rw [ho2] at h2
            dsimp only at h2
            exact absurd h2 (by decide)
        | gt =>
          rw [ho1] at h1
          dsimp only at h1
          exact absurd h1 (by decide)

theorem tupleLe_iff {a b : Tuple} : tupleLe a b = true ↔ tupleCmp a b = .lt ∨ a = b := by
  rw [tupleLe]
  cases ho : tupleCmp a b with
  | lt =>
    constructor
    · intro _
      exact Or.inl rfl
    · intro _
      decide
  | eq =>
    constructor
    · intro _
      exact Or.inr (tupleCmp_eq_iff.mp ho)
    · intro _
      decide
  | gt =>
    constructor
    · intro h
      exact absurd h (by decide)
    · rintro (h | rfl)
      · exact absurd h (by decide)
      · rw [tupleCmp_eq_iff.mpr rfl] at ho
        exact absurd ho (by decide)

theorem tupleLe_total (a b : Tuple) : tupleLe a b = true ∨ tupleLe b a = true := by
  cases ho : tupleCmp a b with
  | lt => exact Or.inl (tupleLe_iff.mpr (Or.inl ho))
  | eq => exact Or.inl (tupleLe_iff.mpr (Or.inr (tupleCmp_eq_iff.mp ho)))
  | gt =>
    right
    apply tupleLe_iff.mpr
    left
    have := tupleCmp_swap b a
    rw [ho] at this
    exact this

theorem tupleLe_trans {a b c : Tuple} (h1 : tupleLe a b = true) (h2 : tupleLe b c = true) :
    tupleLe a c = true := by
  rcases tupleLe_iff.mp h1 with hl1 | rfl
  · rcases tupleLe_iff.mp h2 with hl2 | rfl
    · exact tupleLe_iff.mpr (Or.inl (tupleCmp_lt_trans hl1 hl2))
    · exact h1
  · exact h2

theorem tupleLe_antisymm {a b : Tuple} (h1 : tupleLe a b = true) (h2 : tupleLe b a = true) :
    a = b := by
  rcases tupleLe_iff.mp h1 with hl1 | rfl
  · rcases tupleLe_iff.mp h2 with hl2 | rfl
    · have hsw := tupleCmp_swap a b
      rw [hl1, hl2] at hsw
      exact absurd hsw (by decide)
    · rfl
  · rfl

instance : IsTotal Tuple (fun a b => tupleLe a b = true) :=
  ⟨fun a b => tupleLe_total a b⟩

instance : IsTrans Tuple (fun a b => tupleLe a b = true) :=
  ⟨fun _ _ _ => tupleLe_trans⟩

instance : IsAntisymm Tuple (fun a b => tupleLe a b = true) :=
  ⟨fun _ _ => tupleLe_antisymm⟩

theorem sortBucket_perm (l : List Tuple) : (sortBucket l).Perm l :=
  List.perm_insertionSort _ l

theorem sortBucket_sorted (l : List Tuple) :
    List.Pairwise (fun a b => tupleLe a b = true) (sortBucket l) :=
  List.sorted_insertionSort _ l

theorem sortBucket_length (l : List Tuple) : (sortBucket l).length = l.length :=
  (sortBucket_perm l).length_eq

theorem sortBucket_ne_nil {l : List Tuple} (h : l ≠ []) : sortBucket l ≠ [] := by
  intro hc
  apply h
  have := (sortBucket_perm l).length_eq
  rw [hc] at this
  exact List.length_eq_zero.mp this.symm

theorem zipDiff_mem : ∀ (f t : List Value) (j i : Nat) (a b : Value),
    (i, (a, b)) ∈ zipDiff f t j ↔
      j ≤ i ∧ f[i - j]? = some a ∧ t[i - j]? = some b ∧ a ≠ b := by
  intro f
  induction f with
  | nil =>
    intro t j i a b
    constructor
    · intro h
      exact absurd h (by cases t <;> simp [zipDiff])
    · rintro ⟨-, h2, -⟩
      rw [List.getElem?_nil] at h2
      exact absurd h2 (by simp)
  | cons x xs ih =>
    intro t j i a b
    cases t with
    | nil =>
      constructor
      · intro h
        exact absurd h (by simp [zipDiff])
      · rintro ⟨-, -, h3, -⟩
        rw [List.getElem?_nil] at h3
        exact absurd h3 (by simp)
    | cons y ys =>
      rw [zipDiff, List.mem_append]
      constructor
      · rintro (h1 | h2)
        · by_cases hxy : x ≠ y
          · rw [if_pos hxy] at h1
            have he : (i, (a, b)) = (j, (x, y)) := List.mem_singleton.mp h1
            have hi : i = j := congrArg Prod.fst he
            have ha : a = x := congrArg (fun p => p.2.1) he
            have hb : b = y := congrArg (fun p => p.2.2) he
            subst hi
            subst ha
            subst hb
            refine ⟨Nat.le_refl _, ?_, ?_, hxy⟩
            · rw [Nat.sub_self, List.getElem?_cons_zero]
            · rw [Nat.sub_self, List.getElem?_cons_zero]
          · rw [if_neg hxy] at h1
            exact absurd h1 (by simp)
        · rcases (ih ys (j + 1) i a b).mp h2 with ⟨hj, hf, ht, hne⟩
          have hidx : i - j = (i - (j + 1)) + 1 := by omega
          refine ⟨by omega, ?_, ?_, hne⟩
          · rw [hidx, List.getElem?_cons_succ]
            exact hf
          · rw [hidx, List.getElem?_cons_succ]
            exact ht
      · rintro ⟨hj, hf, ht, hne⟩
        rcases Nat.eq_or_lt_of_le hj with heq | hlt
        · subst heq
          rw [Nat.sub_self, List.getElem?_cons_zero] at hf ht
          have ha : x = a := by injection hf
          have hb : y = b := by injection ht
          subst ha
          subst hb
          left
          rw [if_pos hne]
          exact List.mem_singleton.mpr rfl
        · right
          apply (ih ys (j + 1) i a b).mpr
          have hidx : i - j = (i - (j + 1)) + 1 := by omega
          rw [hidx, List.getElem?_cons_succ] at hf ht
          exact ⟨by omega, hf, ht, hne⟩

theorem mkResult_pair_data (key : List Value) (df : List (String × Nat)) (f t : Tuple) :
    (mkResult key df (some [f]) (some [t])).data = zipDiff f t 0 := rfl

theorem mkResult_data_eq_nil (key : List Value) (df : List (String × Nat))
    (fr tr : Option (List Tuple))
    (h : ¬ ∃ f t, fr = some [f] ∧ tr = some [t]) :
    (mkResult key df fr tr).data = [] := by
  cases fr with
  | none => rfl
  | some lf =>
    cases lf with
    | nil => rfl
    | cons f fs =>
      cases fs with
      | cons g gs => rfl
      | nil =>
        cases tr with
        | none => rfl
        | some lt =>
          cases lt with
          | nil => rfl
          | cons t ts =>
            cases ts with
            | cons u us => rfl
            | nil => exact absurd ⟨f, t, rfl, rfl⟩ h

theorem diffKeyResults_pairing {key : List Value} {df : List (String × Nat)}
    {fb tb : List (List Value × List Tuple)} {l1 l2 : List Tuple}
    (h1 : alookup key fb = some l1) (h2 : alookup key tb = some l2)
    (hn1 : l1 ≠ []) (hn2 : l2 ≠ []) (hlen : l1.length = l2.length) :
    diffKeyResults key df fb tb =
      ((sortBucket l1).zip (sortBucket l2)).map
        (fun ft => mkResult key df (some [ft.1]) (some [ft.2])) := by
  rw [diffKeyResults, h1, h2]
  dsimp only [Option.map]
  rw [if_pos ⟨sortBucket_ne_nil hn1, sortBucket_ne_nil hn2,
    by rw [sortBucket_length, sortBucket_length, hlen]⟩]

theorem diffKeyResults_single {key : List Value} {df : List (String × Nat)}
    {fb tb : List (List Value × List Tuple)}
    (h : ¬ ∃ l1 l2, alookup key fb = some l1 ∧ alookup key tb = some l2 ∧
        l1 ≠ [] ∧ l2 ≠ [] ∧ l1.length = l2.length) :
    ∃ r0, diffKeyResults key df fb tb = [r0] ∧ r0.data = [] ∧
      r0.fromRow = (alookup key fb).map sortBucket ∧
      r0.toRow = (alookup key tb).map sortBucket := by
  rw [diffKeyResults]
  cases ho1 : alookup key fb with
  | none =>
    dsimp only [Option.map]
    refine ⟨mkResult key df none ((alookup key tb).map sortBucket), rfl, ?_, rfl, rfl⟩
    apply mkResult_data_eq_nil
    rintro ⟨f, t, hf, -⟩
    exact absurd hf (by simp)
  | some l1 =>
    cases ho2 : alookup key tb with
    | none =>
      dsimp only [Option.map]
      refine ⟨mkResult key df (some (sortBucket l1)) none, rfl, ?_, rfl, rfl⟩
      apply mkResult_data_eq_nil
      rintro ⟨f, t, -, ht⟩
      exact absurd ht (by simp)
    | some l2 =>
      have hc : ¬ (sortBucket l1 ≠ [] ∧ sortBucket l2 ≠ [] ∧
          (sortBucket l1).length = (sortBucket l2).length) := by
        rintro ⟨hc1, hc2, hc3⟩
        apply h
        refine ⟨l1, l2, ho1, ho2, ?_, ?_, ?_⟩
        · intro hn
          apply hc1
          rw [hn]
          rfl
        · intro hn
          apply hc2
          rw [hn]
          rfl
        · rw [sortBucket_length, sortBucket_length] at hc3
          exact hc3
      dsimp only [Option.map]
      rw [if_neg hc]
      refine ⟨_, rfl, ?_, rfl, rfl⟩
      apply mkResult_data_eq_nil
      rintro ⟨f, t, hf, ht⟩
      have hf' : sortBucket l1 = [f] := by injection hf
      have ht' : sortBucket l2 = [t] := by injection ht
      exact hc ⟨by simp [hf'], by simp [ht'], by simp [hf', ht']⟩

/-- C1: `diff` folds, over every bucket key present on either side, the
per-key results into the ResultSet.  For any key whose two buckets are both
present, non-empty and of equal row count, each side's bucket is sorted by
the total order on value tuples (Null lowest) and paired positionally, one
Result per pair, and a pair's changed-field map holds exactly the indices
at which the two aligned tuples differ; for any key where the counts differ
or a side is absent, a single Result covers the whole bucket pair and
carries no positional field diff. -/
theorem claim_C1_diff_bucket_pairing (fromT toT : DataTable) (buckets : List String)
    (df : List (String × Nat)) (fb tb : List (List Value × List Tuple))
    (key : List Value) :
    (diff fromT toT buckets =
      (allKeysOf
          (diffBucket fromT (bucketHeadersFor fromT buckets)
            (diffHeadersList fromT toT buckets))
          (diffBucket toT (bucketHeadersFor toT buckets)
            (diffHeadersList fromT toT buckets))).foldl
        (fun s k =>
          (diffKeyResults k (diffFieldsOf fromT toT buckets)
              (diffBucket fromT (bucketHeadersFor fromT buckets)
                (diffHeadersList fromT toT buckets))
              (diffBucket toT (bucketHeadersFor toT buckets)
                (diffHeadersList fromT toT buckets))).foldl iaddRS s)
        []) ∧
    (∀ v, valueLe Value.null v = true) ∧
    (∀ l1 l2, alookup key fb = some l1 → alookup key tb = some l2 →
      l1 ≠ [] → l2 ≠ [] → l1.length = l2.length →
      ((sortBucket l1).Perm l1 ∧
        List.Pairwise (fun a b => tupleLe a b = true) (sortBucket l1)) ∧
      ((sortBucket l2).Perm l2 ∧
        List.Pairwise (fun a b => tupleLe a b = true) (sortBucket l2)) ∧
      diffKeyResults key df fb tb =
        ((sortBucket l1).zip (sortBucket l2)).map
          (fun ft => mkResult key df (some [ft.1]) (some [ft.2])) ∧
      (∀ f t i a b,
        (i, (a, b)) ∈ (mkResult key df (some [f]) (some [t])).data ↔
          f[i]? = some a ∧ t[i]? = some b ∧ a ≠ b)) ∧
    ((¬ ∃ l1 l2, alookup key fb = some l1 ∧ alookup key tb = some l2 ∧
        l1 ≠ [] ∧ l2 ≠ [] ∧ l1.length = l2.length) →
      ∃ r0, diffKeyResults key df fb tb = [r0] ∧ r0.data = [] ∧
        r0.fromRow = (alookup key fb).map sortBucket ∧
        r0.toRow = (alookup key tb).map sortBucket) := by
  refine ⟨rfl, valueLe_null, ?_, diffKeyResults_single⟩
  intro l1 l2 h1 h2 hn1 hn2 hlen
  refine ⟨⟨sortBucket_perm l1, sortBucket_sorted l1⟩,
    ⟨sortBucket_perm l2, sortBucket_sorted l2⟩,
    diffKeyResults_pairing h1 h2 hn1 hn2 hlen, ?_⟩
  intro f t i a b
  rw [mkResult_pair_data]
  simpa using zipDiff_mem f t 0 i a b

/-- C1 witness: diffing `[{k:1,f:"a"}]` against `[{k:1,f:"b"}]` on `k`: the
key `(1,)` has equal singleton buckets and yields the positional pair
result recording the `f` change, while an absent key yields (via the
single-result branch) a Result with no positional diff. -/
theorem claim_C1_diff_bucket_pairing_witness :
    diffKeyResults [Value.int 1]
        (diffFieldsOf (dtFromRows [[("k", Value.int 1), ("f", Value.str "a")]]).1
          (dtFromRows [[("k", Value.int 1), ("f", Value.str "b")]]).1 ["k"])
        (diffBucket (dtFromRows [[("k", Value.int 1), ("f", Value.str "a")]]).1
          (bucketHeadersFor (dtFromRows [[("k", Value.int 1), ("f", Value.str "a")]]).1 ["k"])
          (diffHeadersList (dtFromRows [[("k", Value.int 1), ("f", Value.str "a")]]).1
            (dtFromRows [[("k", Value.int 1), ("f", Value.str "b")]]).1 ["k"]))
        (diffBucket (dtFromRows [[("k", Value.int 1), ("f", Value.str "b")]]).1
          (bucketHeadersFor (dtFromRows [[("k", Value.int 1), ("f", Value.str "b")]]).1 ["k"])
          (diffHeadersList (dtFromRows [[("k", Value.int 1), ("f", Value.str "a")]]).1
            (dtFromRows [[("k", Value.int 1), ("f", Value.str "b")]]).1 ["k"])) =
      [mkResult [Value.int 1] [("f", 0)]
        (some [[Value.str "a"]]) (some [[Value.str "b"]])] ∧
    (∃ r0,
      diffKeyResults [Value.int 2]
          (diffFieldsOf (dtFromRows [[("k", Value.int 1), ("f", Value.str "a")]]).1
            (dtFromRows [[("k", Value.int 1), ("f", Value.str "b")]]).1 ["k"])
          (diffBucket (dtFromRows [[("k", Value.int 1), ("f", Value.str "a")]]).1
            (bucketHeadersFor (dtFromRows [[("k", Value.int 1), ("f", Value.str "a")]]).1 ["k"])
            (diffHeadersList (dtFromRows [[("k", Value.int 1), ("f", Value.str "a")]]).1
              (dtFromRows [[("k", Value.int 1), ("f", Value.str "b")]]).1 ["k"]))
          (diffBucket (dtFromRows [[("k", Value.int 1), ("f", Value.str "b")]]).1
            (bucketHeadersFor (dtFromRows [[("k", Value.int 1), ("f", Value.str "b")]]).1 ["k"])
            (diffHeadersList (dtFromRows [[("k", Value.int 1), ("f", Value.str "a")]]).1
              (dtFromRows [[("k", Value.int 1), ("f", Value.str "b")]]).1 ["k"])) =
        [r0] ∧ r0.data = []) := by
  constructor
  · have h := claim_C1_diff_bucket_pairing
      (dtFromRows [[("k", Value.int 1), ("f", Value.str "a")]]).1
      (dtFromRows [[("k", Value.int 1), ("f", Value.str "b")]]).1 ["k"]
      (diffFieldsOf (dtFromRows [[("k", Value.int 1), ("f", Value.str "a")]]).1
        (dtFromRows [[("k", Value.int 1), ("f", Value.str "b")]]).1 ["k"])
      (diffBucket (dtFromRows [[("k", Value.int 1), ("f", Value.str "a")]]).1
        (bucketHeadersFor (dtFromRows [[("k", Value.int 1), ("f", Value.str "a")]]).1 ["k"])
        (diffHeadersList (dtFromRows [[("k", Value.int 1), ("f", Value.str "a")]]).1
          (dtFromRows [[("k", Value.int 1), ("f", Value.str "b")]]).1 ["k"]))
      (diffBucket (dtFromRows [[("k", Value.int 1), ("f", Value.str "b")]]).1
        (bucketHeadersFor (dtFromRows [[("k", Value.int 1), ("f", Value.str "b")]]).1 ["k"])
        (diffHeadersList (dtFromRows [[("k", Value.int 1), ("f", Value.str "a")]]).1
          (dtFromRows [[("k", Value.int 1), ("f", Value.str "b")]]).1 ["k"]))
      [Value.int 1]
    have hp := h.2.2.1 [[Value.str "a"]] [[Value.str "b"]] rfl rfl
      (by decide) (by decide) rfl
    rw [hp.2.2.1]
    rfl
  · have h2 := claim_C1_diff_bucket_pairing
      (dtFromRows [[("k", Value.int 1), ("f", Value.str "a")]]).1
      (dtFromRows [[("k", Value.int 1), ("f", Value.str "b")]]).1 ["k"]
      (diffFieldsOf (dtFromRows [[("k", Value.int 1), ("f", Value.str "a")]]).1
        (dtFromRows [[("k", Value.int 1), ("f", Value.str "b")]]).1 ["k"])
      (diffBucket (dtFromRows [[("k", Value.int 1), ("f", Value.str "a")]]).1
        (bucketHeadersFor (dtFromRows [[("k", Value.int 1), ("f", Value.str "a")]]).1 ["k"])
        (diffHeadersList (dtFromRows [[("k", Value.int 1), ("f", Value.str "a")]]).1
          (dtFromRows [[("k", Value.int 1), ("f", Value.str "b")]]).1 ["k"]))
      (diffBucket (dtFromRows [[("k", Value.int 1), ("f", Value.str "b")]]).1
        (bucketHeadersFor (dtFromRows [[("k", Value.int 1), ("f", Value.str "b")]]).1 ["k"])
        (diffHeadersList (dtFromRows [[("k", Value.int 1), ("f", Value.str "a")]]).1
          (dtFromRows [[("k", Value.int 1), ("f", Value.str "b")]]).1 ["k"]))
      [Value.int 2]
    have hne : ¬ ∃ l1 l2,
        alookup [Value.int 2]
          (diffBucket (dtFromRows [[("k", Value.int 1), ("f", Value.str "a")]]).1
            (bucketHeadersFor (dtFromRows [[("k", Value.int 1), ("f", Value.str "a")]]).1 ["k"])
            (diffHeadersList (dtFromRows [[("k", Value.int 1), ("f", Value.str "a")]]).1
              (dtFromRows [[("k", Value.int 1), ("f", Value.str "b")]]).1 ["k"])) = some l1 ∧
        alookup [Value.int 2]
          (diffBucket (dtFromRows [[("k", Value.int 1), ("f", Value.str "b")]]).1
            (bucketHeadersFor (dtFromRows [[("k", Value.int 1), ("f", Value.str "b")]]).1 ["k"])
            (diffHeadersList (dtFromRows [[("k", Value.int 1), ("f", Value.str "a")]]).1
              (dtFromRows [[("k", Value.int 1), ("f", Value.str "b")]]).1 ["k"])) = some l2 ∧
        l1 ≠ [] ∧ l2 ≠ [] ∧ l1.length = l2.length := by
      rintro ⟨l1, l2, hl1, -, -, -, -⟩
      exact Option.noConfusion hl1
    rcases h2.2.2.2 hne with ⟨r0, he, hd, -, -⟩
    exact ⟨r0, he, hd⟩

end PyDataTable
